import Mathlib

/-!
# Search server: query pipeline

A shallow embedding of `server.go`: the filter stage (`queryUsers`), the stable
sort (`sortUsers`), the pagination window (`limitOffsetUsers`), the parameter
validators and the request handler (`SearchServer`), followed by the
properties of the pipeline.

Conventions of the embedding

* a Go `string` is its sequence of bytes (`GoString`);
* a Go `int` is a 64-bit two's complement integer: values are `Int`, and the
  one addition of the program is reduced with `wrapInt`;
* a slice is a `List`; a run-time panic is the result `none`;
* a Go `map[int]User` is a function `Int → Option User`;
* the effect of `time.Sleep` is the list of the durations slept, in nanoseconds
  (`queryUsersTimed`).
-/

namespace UserSearch

/-! ## Data model -/

/-- A Go string: an immutable sequence of bytes. -/
abbrev GoString := List Nat

/-- The bytes of an ASCII literal (every character of the literals used here
is below 128, so its code point is its single byte). -/
def ascii (s : String) : GoString := s.data.map Char.toNat

/-- Two's complement wrap-around of a 64-bit signed integer. -/
def wrapInt (x : Int) : Int := (x + 2 ^ 63) % 2 ^ 64 - 2 ^ 63

/-- The largest value of a Go `int` on a 64-bit platform. -/
def maxInt : Int := 2 ^ 63 - 1

/-- The record type `User`; its declaration is not in `server.go`, the fields
are the ones `loadUsers` fills in. -/
structure User where
  ID : Int
  Name : GoString
  Age : Int
  About : GoString
  Gender : GoString
deriving DecidableEq

/-- The slice type `Users`. -/
abbrev Users := List User

/-- One `row` element of the data set. -/
structure Row where
  ID : Int
  FirstName : GoString
  LastName : GoString
  Age : Int
  About : GoString
  Gender : GoString
deriving DecidableEq

def OrderFieldID : GoString := ascii "id"
def OrderFieldAge : GoString := ascii "age"
def OrderFieldName : GoString := ascii "name"
def OrderFieldEmpty : GoString := ascii ""

def ErrorBadLimit : GoString := ascii "limit invalid"
def ErrorBadOffset : GoString := ascii "offset invalid"
def ErrorBadOrderBy : GoString := ascii "order_by invalid"

/-- Modelled from the spec: the constant `OrderByAsc` is declared outside
`server.go`; the spec gives the wire value 1 to the ascending direction. -/
def OrderByAsc : Int := 1

/-- Modelled from the spec: the constant `OrderByAsIs` is declared outside
`server.go`; the spec gives the wire value 0 to the unordered direction. -/
def OrderByAsIs : Int := 0

/-- Modelled from the spec: the constant `OrderByDesc` is declared outside
`server.go`; the spec gives the wire value -1 to the descending direction. -/
def OrderByDesc : Int := -1

/-- Modelled from the spec: the constant `ErrorBadOrderField` is declared
outside `server.go`; the spec names the failure "order_field invalid". -/
def ErrorBadOrderField : GoString := ascii "order_field invalid"

/-! ## Library functions used by the program -/

/-- The function `strings.Contains(s, substr)`: `substr` occurs in `s` as a
contiguous run of bytes. -/
def strings.Contains : GoString → GoString → Bool
  | [], substr => substr.isPrefixOf []
  | c :: s, substr => substr.isPrefixOf (c :: s) || strings.Contains s substr

/-- The comparison `a < b` of two Go strings: byte by byte, a proper prefix
being smaller. -/
def strLess : GoString → GoString → Bool
  | [], [] => false
  | [], _ :: _ => true
  | _ :: _, [] => false
  | a :: as, b :: bs => if a < b then true else if b < a then false else strLess as bs

/-- One step of the stable sort: `x`, which stood before every element of the
sorted list, moves right past exactly the elements that are smaller. -/
def sort.insert {α : Type} (less : α → α → Bool) (x : α) : List α → List α
  | [] => [x]
  | y :: ys => if less y x then y :: sort.insert less x ys else x :: y :: ys

/-- The function `sort.SliceStable(x, less)` on a slice seen as a list: a
stable sort by the comparison `less`, realised as a stable insertion sort
(the library's own algorithm for short slices). -/
def sort.SliceStable {α : Type} (less : α → α → Bool) : List α → List α
  | [] => []
  | x :: xs => sort.insert less x (sort.SliceStable less xs)

/-! ## The query pipeline -/

/-- The assignment `m[k] = v` on a map. -/
def mapSet (m : Int → Option User) (k : Int) (v : User) : Int → Option User :=
  fun k' => if k' = k then some v else m k'

/-- The first loop of `queryUsers`: one iteration for the record `user`. The
sleep of the long-query path has no effect on the map and is left out. -/
def queryStep (query : GoString) (unique : Int → Option User) (user : User) :
    Int → Option User :=
  if query.length > 0 then
    if strings.Contains user.Name query || strings.Contains user.About query then
      mapSet unique user.ID user
    else unique
  else mapSet unique user.ID user

/-- The function `queryUsers`: the first loop fills the map `unique`, the second
walks `users` again and appends `unique[user.ID]` for every record whose
identifier is a key of the map. -/
def queryUsers (users : Users) (query : GoString) : Users :=
  let unique := users.foldl (queryStep query) (fun _ => none)
  users.filterMap (fun user => unique user.ID)

/-- The comparison closure passed to `sort.SliceStable` by `sortUsers`. -/
def sortLess (orderBy : Int) (orderField : GoString) (a b : User) : Bool :=
  if orderBy = OrderByAsc then
    if orderField = OrderFieldID then decide (a.ID < b.ID)
    else if orderField = OrderFieldAge then decide (a.Age < b.Age)
    else if orderField = OrderFieldName then strLess a.Name b.Name
    else false
  else if orderBy = OrderByDesc then
    if orderField = OrderFieldID then decide (a.ID > b.ID)
    else if orderField = OrderFieldAge then decide (a.Age > b.Age)
    else if orderField = OrderFieldName then strLess b.Name a.Name
    else false
  else false

/-- The function `sortUsers`. -/
def sortUsers (users : Users) (orderBy : Int) (orderField : GoString) : Users :=
  sort.SliceStable (sortLess orderBy orderField) users

/-- The function `limitOffsetUsers`. The sum `offset + limit` wraps around as a
64-bit integer; the slice expression `users[offset:realLimit]` panics (`none`)
unless `0 ≤ offset ≤ realLimit ≤ cap(users)`, and `realLimit` never exceeds
`len(users)` after the clamp, so the last comparison is made with the length. -/
def limitOffsetUsers (users : Users) (limit offset : Int) : Option Users :=
  let len : Int := users.length
  let offset := if offset ≥ len then (if len - 1 < 0 then 0 else len - 1) else offset
  let realLimit := wrapInt (offset + limit)
  let realLimit := if realLimit > len then len else realLimit
  if 0 ≤ offset ∧ offset ≤ realLimit ∧ realLimit ≤ len then
    some ((users.drop offset.toNat).take (realLimit - offset).toNat)
  else none

/-! ## Parameters, loading and the handler -/

/-- The digits of `strconv.Atoi`: every byte must be one of `'0'` to `'9'`; the
value read so far is `acc`. -/
def strconv.digits : GoString → Nat → Option Nat
  | [], acc => some acc
  | c :: s, acc => if 48 ≤ c ∧ c ≤ 57 then strconv.digits s (acc * 10 + (c - 48)) else none

/-- The function `strconv.Atoi` on a 64-bit platform, `none` standing for a
non-nil error: an optional sign `'+'` or `'-'`, then at least one decimal
digit and nothing else; a value outside the range of `int` is an error. -/
def strconv.Atoi (s : GoString) : Option Int :=
  let body := if s.head? = some 45 ∨ s.head? = some 43 then s.tail else s
  if body = [] then none
  else
    match strconv.digits body 0 with
    | none => none
    | some n =>
      let v : Int := if s.head? = some 45 then -(n : Int) else (n : Int)
      if -(2 ^ 63) ≤ v ∧ v ≤ maxInt then some v else none

/-- The function `strings.ToLower`: a string of ASCII bytes has its letters
`'A'` to `'Z'` replaced by `'a'` to `'z'`; any other string is mapped rune by
rune through the Unicode tables of the library, which are the parameter
`mapLower`. -/
def strings.ToLower (mapLower : GoString → GoString) (s : GoString) : GoString :=
  if s.all (fun c => decide (c < 128)) then
    s.map (fun c => if 65 ≤ c ∧ c ≤ 90 then c + 32 else c)
  else mapLower s

/-- The parsed query string `r.URL.Query()`: the values of each key, in order
of appearance, none for an absent key. -/
abbrev Values := GoString → List GoString

/-- The method `Values.Get`: the first value of the key, or the empty string. -/
def Values.Get (v : Values) (key : GoString) : GoString := (v key).headD []

/-- What the handler reads of a request: the value `r.Header.Get("AccessToken")`
(empty when the header is missing) and the parsed query string. -/
structure Request where
  AccessToken : GoString
  Query : Values

def parseLimitParam (r : Request) : Except GoString Int :=
  match strconv.Atoi (Values.Get r.Query (ascii "limit")) with
  | none => Except.error ErrorBadLimit
  | some limit => if limit < 0 then Except.error ErrorBadLimit else Except.ok limit

def parseOffsetParam (r : Request) : Except GoString Int :=
  match strconv.Atoi (Values.Get r.Query (ascii "offset")) with
  | none => Except.error ErrorBadOffset
  | some offset => if offset < 0 then Except.error ErrorBadOffset else Except.ok offset

def parseOrderFieldParam (mapLower : GoString → GoString) (r : Request) :
    Except GoString GoString :=
  let orderField := strings.ToLower mapLower (Values.Get r.Query (ascii "order_field"))
  if orderField = OrderFieldID ∨ orderField = OrderFieldAge ∨ orderField = OrderFieldName then
    Except.ok orderField
  else if orderField = OrderFieldEmpty then Except.ok OrderFieldName
  else Except.error ErrorBadOrderField

def parseOrderByParam (r : Request) : Except GoString Int :=
  match strconv.Atoi (Values.Get r.Query (ascii "order_by")) with
  | none => Except.error ErrorBadOrderBy
  | some orderBy =>
    if orderBy < -1 ∨ orderBy > 1 then Except.error ErrorBadOrderBy else Except.ok orderBy

def parseQueryParam (r : Request) : GoString := Values.Get r.Query (ascii "query")

/-- The state of the data source named by `FileDataset`: the file cannot be
opened, its content does not decode, or it decodes to a sequence of rows. -/
inductive Source where
  | unreadable
  | malformed (err : GoString)
  | dataset (rows : List Row)

/-- The function `loadUsers`. -/
def loadUsers : Source → Except GoString Users
  | Source.unreadable => Except.error (ascii "open file error")
  | Source.malformed err => Except.error err
  | Source.dataset rows =>
    Except.ok (rows.map fun row =>
      { ID := row.ID
        Name := row.FirstName ++ ascii " " ++ row.LastName
        Age := row.Age
        About := row.About
        Gender := row.Gender })

/-- The body of a response: nothing, the object `SearchErrorResponse{Error: desc}`,
or the user sequence, each in its JSON encoding. -/
inductive Body where
  | empty
  | error (desc : GoString)
  | users (data : Users)
deriving DecidableEq

/-- What the handler writes: the status code and the body. -/
structure Response where
  Code : Nat
  Body : Body
deriving DecidableEq

def internalServerError (desc : GoString) : Response := ⟨500, Body.error desc⟩

def badRequest (desc : GoString) : Response := ⟨400, Body.error desc⟩

def unauthorized : Response := ⟨401, Body.empty⟩

def ok (data : Users) : Response := ⟨200, Body.users data⟩

/-- The handler `SearchServer`, as a function of the data source and of the
request; `none` is a panic of the handler, in which case no response is
written. -/
def SearchServer (mapLower : GoString → GoString) (src : Source) (r : Request) :
    Option Response :=
  if r.AccessToken ≠ ascii "token" then some unauthorized
  else
    match loadUsers src with
    | Except.error err => some (internalServerError err)
    | Except.ok users =>
      match parseLimitParam r with
      | Except.error err => some (badRequest err)
      | Except.ok limit =>
        match parseOffsetParam r with
        | Except.error err => some (badRequest err)
        | Except.ok offset =>
          match parseOrderFieldParam mapLower r with
          | Except.error err => some (badRequest err)
          | Except.ok orderField =>
            match parseOrderByParam r with
            | Except.error err => some (badRequest err)
            | Except.ok orderBy =>
              let query := parseQueryParam r
              let users := sortUsers users orderBy orderField
              let users := queryUsers users query
              match limitOffsetUsers users limit offset with
              | none => none
              | some users => some (ok users)

/-- The stages of the handler after validation: sort, filter, paginate. -/
def pipeline (users : Users) (orderBy : Int) (orderField query : GoString)
    (limit offset : Int) : Option Users :=
  limitOffsetUsers (queryUsers (sortUsers users orderBy orderField) query) limit offset

/-- The offset that `limitOffsetUsers` uses after its clamp, for a sequence of
length `len`. -/
def clampedOffset (len offset : Int) : Int :=
  if offset < len then offset else max (len - 1) 0

/-! ## Numerals, request updates and the latency of the filter stage -/

/-- The value of a run of decimal digit bytes, most significant digit first. -/
def decimalValue (digits : GoString) : Nat :=
  Nat.ofDigits 10 (digits.reverse.map (fun c => c - 48))

/-- The text is a decimal integer numeral of value `n`: an optional sign `'+'`
or `'-'` followed by one or more of the digits `'0'` to `'9'` and nothing
else, read in base ten. -/
def IsDecimal (text : GoString) (n : Int) : Prop :=
  ∃ sign digits : GoString, text = sign ++ digits ∧
    (sign = [] ∨ sign = [43] ∨ sign = [45]) ∧ digits ≠ [] ∧
    (∀ c ∈ digits, 48 ≤ c ∧ c ≤ 57) ∧
    n = if sign = [45] then -(decimalValue digits : Int) else (decimalValue digits : Int)

/-- The request `r` with the query parameter `key` set to the single value
`value`. -/
def Request.withParam (r : Request) (key value : GoString) : Request :=
  { r with Query := fun k => if k = key then [value] else r.Query k }

/-- The duration `time.Second / 10` of one sleep, in nanoseconds. -/
def sleepDuration : Nat := 1000000000 / 10

/-- The calls of `time.Sleep` made by one iteration of the first loop of
`queryUsers`, each given by its duration. -/
def queryStepSleeps (query : GoString) : List Nat :=
  if query.length > 0 then
    if query.length > 20 then [sleepDuration] else []
  else []

/-- The function `queryUsers` together with its effect on time: the returned
sequence and the durations of the calls of `time.Sleep`, in order. -/
def queryUsersTimed (users : Users) (query : GoString) : Users × List Nat :=
  let state := users.foldl
    (fun (acc : (Int → Option User) × List Nat) user =>
      (queryStep query acc.1 user, acc.2 ++ queryStepSleeps query))
    (fun _ => none, [])
  (users.filterMap (fun user => state.1 user.ID), state.2)

/-- The number of characters of a UTF-8 text: the bytes that are not
continuation bytes (`0x80` to `0xBF`). -/
def charCount (text : GoString) : Nat :=
  (text.filter (fun b => !(decide (128 ≤ b) && decide (b < 192)))).length

/-- The bounds of the slice expression of `limitOffsetUsers`: the offset after
the clamp and `realLimit` after the comparison with the length. -/
def limitOffsetBounds (users : Users) (limit offset : Int) : Int × Int :=
  let len : Int := users.length
  let offset := if offset ≥ len then (if len - 1 < 0 then 0 else len - 1) else offset
  let realLimit := wrapInt (offset + limit)
  let realLimit := if realLimit > len then len else realLimit
  (offset, realLimit)

/-! ## Sample data -/

/-- Three records with distinct identifiers. -/
def sampleUsers : Users :=
  [⟨0, ascii "Boyd Wolf", 22, ascii "Nulla cillum", ascii "male"⟩,
   ⟨1, ascii "Hilda Mayer", 21, ascii "Sit commodo", ascii "female"⟩,
   ⟨2, ascii "Brooks Aguilar", 25, ascii "qui cillum aliqua", ascii "male"⟩]

/-- A record with identifier 1. -/
def dupFirst : User := ⟨1, ascii "a", 30, ascii "", ascii "male"⟩

/-- A later record with the same identifier 1. -/
def dupSecond : User := ⟨1, ascii "b", 20, ascii "", ascii "female"⟩

/-- Two stored rows. -/
def sampleRows : List Row :=
  [⟨0, ascii "Boyd", ascii "Wolf", 22, ascii "Nulla cillum", ascii "male"⟩,
   ⟨1, ascii "Hilda", ascii "Mayer", 21, ascii "Sit commodo", ascii "female"⟩]

/-- A request with the valid token and the given texts of `limit` and `offset`;
`order_field`, `order_by` and `query` are `name`, `0` and absent. -/
def sampleRequest (limit offset : GoString) : Request where
  AccessToken := ascii "token"
  Query := fun key =>
    if key = ascii "limit" then [limit]
    else if key = ascii "offset" then [offset]
    else if key = ascii "order_field" then [ascii "name"]
    else if key = ascii "order_by" then [ascii "0"]
    else []

/-- A query of eleven two-byte characters (the Cyrillic letter `а`, eleven
times): 22 bytes. -/
def cyrillicQuery : GoString := (List.replicate 11 [208, 176]).flatten

/-- The users that `loadUsers` builds from `sampleRows`. -/
def sampleLoaded : Users :=
  [⟨0, ascii "Boyd Wolf", 22, ascii "Nulla cillum", ascii "male"⟩,
   ⟨1, ascii "Hilda Mayer", 21, ascii "Sit commodo", ascii "female"⟩]

/-- A request without the `AccessToken` header and without parameters. -/
def anonymousRequest : Request where
  AccessToken := []
  Query := fun _ => []

/-- Three stored rows, not in the order of their identifiers. -/
def wireRows : List Row :=
  [⟨2, ascii "Brooks", ascii "Aguilar", 25, ascii "qui cillum aliqua", ascii "male"⟩,
   ⟨1, ascii "Hilda", ascii "Mayer", 21, ascii "Sit commodo", ascii "female"⟩,
   ⟨0, ascii "Boyd", ascii "Wolf", 22, ascii "Nulla cillum", ascii "male"⟩]

/-- The users that `loadUsers` builds from `wireRows`. -/
def wireUsers : Users :=
  [⟨2, ascii "Brooks Aguilar", 25, ascii "qui cillum aliqua", ascii "male"⟩,
   ⟨1, ascii "Hilda Mayer", 21, ascii "Sit commodo", ascii "female"⟩,
   ⟨0, ascii "Boyd Wolf", 22, ascii "Nulla cillum", ascii "male"⟩]

/-- The request `limit=1&offset=0&query=cillum&order_field=id` with the valid
token and the given text of `order_by`. -/
def wireRequest (orderBy : GoString) : Request where
  AccessToken := ascii "token"
  Query := fun key =>
    if key = ascii "limit" then [ascii "1"]
    else if key = ascii "offset" then [ascii "0"]
    else if key = ascii "query" then [ascii "cillum"]
    else if key = ascii "order_field" then [ascii "id"]
    else if key = ascii "order_by" then [orderBy]
    else []

/-! ## Strings -/

theorem strings.Contains_iff (s substr : GoString) :
    strings.Contains s substr = true ↔ substr <:+: s := by
  induction s with
  | nil =>
    simp [strings.Contains, List.isPrefixOf_iff_prefix]
  | cons c s ih =>
    simp only [strings.Contains, Bool.or_eq_true, List.isPrefixOf_iff_prefix, ih,
      List.infix_cons_iff]

theorem strLess_irrefl (a : GoString) : strLess a a = false := by
  induction a with
  | nil => rfl
  | cons x xs ih => simp [strLess, ih]

theorem strLess_asymm : ∀ a b : GoString, strLess a b = true → strLess b a = false
  | [], [] => by simp [strLess]
  | [], _ :: _ => by simp [strLess]
  | _ :: _, [] => by simp [strLess]
  | x :: xs, y :: ys => by
    intro h
    simp only [strLess] at h ⊢
    split_ifs at h ⊢ <;> first | omega | rfl | exact strLess_asymm xs ys h

theorem strLess_negtrans : ∀ a b c : GoString,
    strLess a b = false → strLess b c = false → strLess a c = false
  | [], [], _ => by simp
  | [], _ :: _, _ => by simp [strLess]
  | _ :: _, [], [] => by simp [strLess]
  | _ :: _, [], _ :: _ => by simp [strLess]
  | _ :: _, _ :: _, [] => by simp [strLess]
  | x :: xs, y :: ys, z :: zs => by
    intro h1 h2
    simp only [strLess] at h1 h2 ⊢
    split_ifs at h1 h2 ⊢ <;>
      first | omega | rfl | exact strLess_negtrans xs ys zs h1 h2

/-- The comparison `strLess` is the lexicographic order of the byte sequences. -/
theorem strLess_iff_lex : ∀ a b : GoString,
    strLess a b = true ↔ List.Lex (· < ·) a b
  | [], [] => by simp [strLess]
  | [], _ :: _ => by simp [strLess, List.Lex.nil]
  | _ :: _, [] => by simp [strLess]
  | x :: xs, y :: ys => by
    simp only [strLess]
    constructor
    · intro h
      split_ifs at h with h1 h2
      · exact List.Lex.rel h1
      · have hxy : x = y := by omega
        subst hxy
        exact List.Lex.cons ((strLess_iff_lex xs ys).1 h)
    · intro h
      cases h with
      | cons h' =>
        simp [(strLess_iff_lex xs ys).2 h']
      | rel h' => simp [h']

/-! ## The stable sort -/

section StableSort

variable {α : Type} (less : α → α → Bool)

theorem sort.insert_perm (x : α) (l : List α) : (sort.insert less x l).Perm (x :: l) := by
  induction l with
  | nil => exact List.Perm.refl _
  | cons y ys ih =>
    simp only [sort.insert]
    split_ifs
    · exact (List.Perm.cons y ih).trans (List.Perm.swap x y ys)
    · exact List.Perm.refl _

theorem sort.SliceStable_perm (l : List α) : (sort.SliceStable less l).Perm l := by
  induction l with
  | nil => exact List.Perm.refl _
  | cons x xs ih =>
    exact (sort.insert_perm less x _).trans (List.Perm.cons x ih)

theorem sort.insert_sorted
    (hasymm : ∀ a b, less a b = true → less b a = false)
    (hneg : ∀ a b c, less a b = false → less b c = false → less a c = false)
    (x : α) (l : List α) (hl : l.Pairwise (fun a b => less b a = false)) :
    (sort.insert less x l).Pairwise (fun a b => less b a = false) := by
  induction l with
  | nil => simp [sort.insert]
  | cons y ys ih =>
    rw [List.pairwise_cons] at hl
    simp only [sort.insert]
    split_ifs with hyx
    · rw [List.pairwise_cons]
      refine ⟨?_, ih hl.2⟩
      intro z hz
      rcases List.mem_cons.1 ((sort.insert_perm less x ys).mem_iff.1 hz) with rfl | hz'
      · exact hasymm _ _ hyx
      · exact hl.1 z hz'
    · have hyx' : less y x = false := by simpa using hyx
      rw [List.pairwise_cons]
      refine ⟨?_, List.pairwise_cons.2 hl⟩
      intro z hz
      rcases List.mem_cons.1 hz with rfl | hz'
      · exact hyx'
      · exact hneg _ _ _ (hl.1 z hz') hyx'

theorem sort.SliceStable_sorted
    (hasymm : ∀ a b, less a b = true → less b a = false)
    (hneg : ∀ a b c, less a b = false → less b c = false → less a c = false)
    (l : List α) : (sort.SliceStable less l).Pairwise (fun a b => less b a = false) := by
  induction l with
  | nil => exact List.Pairwise.nil
  | cons x xs ih => exact sort.insert_sorted less hasymm hneg x _ ih

theorem sort.insert_filter (p : α → Bool) (x : α) (l : List α)
    (h : ∀ y ∈ l, p x = true → p y = true → less y x = false) :
    (sort.insert less x l).filter p = (x :: l).filter p := by
  induction l with
  | nil => rfl
  | cons y ys ih =>
    have ih' := ih (fun z hz => h z (List.mem_cons_of_mem _ hz))
    simp only [sort.insert]
    split_ifs with hyx
    · have hnot : ¬ (p x = true ∧ p y = true) := by
        intro hp
        have := h y (List.mem_cons_self _ _) hp.1 hp.2
        simp [hyx] at this
      by_cases hx : p x = true
      · have hy : p y = false := by
          by_contra hy
          exact hnot ⟨hx, by simpa using hy⟩
        simp [List.filter_cons, hy, ih', hx]
      · have hx' : p x = false := by simpa using hx
        simp only [List.filter_cons, hx'] at ih' ⊢
        simp [ih']
    · rfl

theorem sort.SliceStable_filter (p : α → Bool)
    (h : ∀ a b, p a = true → p b = true → less a b = false) (l : List α) :
    (sort.SliceStable less l).filter p = l.filter p := by
  induction l with
  | nil => rfl
  | cons x xs ih =>
    simp only [sort.SliceStable]
    rw [sort.insert_filter less p x _ (fun y _ hx hy => h y x hy hx)]
    simp [List.filter_cons, ih]

theorem sort.SliceStable_of_never_less (h : ∀ a b, less a b = false) (l : List α) :
    sort.SliceStable less l = l := by
  induction l with
  | nil => rfl
  | cons x xs ih =>
    simp only [sort.SliceStable, ih]
    cases xs with
    | nil => rfl
    | cons y ys => simp [sort.insert, h]

end StableSort

theorem sortLess_asymm (orderBy : Int) (orderField : GoString) (a b : User)
    (h : sortLess orderBy orderField a b = true) : sortLess orderBy orderField b a = false := by
  unfold sortLess at h ⊢
  split_ifs at h ⊢ <;>
    first
      | rfl
      | exact strLess_asymm _ _ h
      | (simp only [decide_eq_true_eq, decide_eq_false_iff_not, gt_iff_lt] at h ⊢; omega)

theorem sortLess_negtrans (orderBy : Int) (orderField : GoString) (a b c : User)
    (h1 : sortLess orderBy orderField a b = false)
    (h2 : sortLess orderBy orderField b c = false) :
    sortLess orderBy orderField a c = false := by
  unfold sortLess at h1 h2 ⊢
  split_ifs at h1 h2 ⊢ <;>
    first
      | rfl
      | exact strLess_negtrans _ _ _ h1 h2
      | exact strLess_negtrans _ _ _ h2 h1
      | (simp only [decide_eq_true_eq, decide_eq_false_iff_not, gt_iff_lt] at h1 h2 ⊢; omega)

theorem sortUsers_perm (users : Users) (orderBy : Int) (orderField : GoString) :
    (sortUsers users orderBy orderField).Perm users :=
  sort.SliceStable_perm _ users

theorem sortUsers_sorted (users : Users) (orderBy : Int) (orderField : GoString) :
    (sortUsers users orderBy orderField).Pairwise
      (fun a b => sortLess orderBy orderField b a = false) :=
  sort.SliceStable_sorted _ (sortLess_asymm orderBy orderField)
    (sortLess_negtrans orderBy orderField) users

/-- Claim C3: for each of the fields id, age and name, `sortUsers` with
`OrderByAsc` returns a permutation of the input whose keys are non-decreasing,
and with `OrderByDesc` a permutation whose keys are non-increasing; id and age
are compared as integers, name in the lexicographic order of its bytes. -/
theorem sortUsers_perm_and_ordered (users : Users) :
    ((sortUsers users OrderByAsc OrderFieldID).Perm users ∧
      (sortUsers users OrderByAsc OrderFieldID).Pairwise (fun a b => a.ID ≤ b.ID)) ∧
    ((sortUsers users OrderByAsc OrderFieldAge).Perm users ∧
      (sortUsers users OrderByAsc OrderFieldAge).Pairwise (fun a b => a.Age ≤ b.Age)) ∧
    ((sortUsers users OrderByAsc OrderFieldName).Perm users ∧
      (sortUsers users OrderByAsc OrderFieldName).Pairwise
        (fun a b => ¬ List.Lex (· < ·) b.Name a.Name)) ∧
    ((sortUsers users OrderByDesc OrderFieldID).Perm users ∧
      (sortUsers users OrderByDesc OrderFieldID).Pairwise (fun a b => b.ID ≤ a.ID)) ∧
    ((sortUsers users OrderByDesc OrderFieldAge).Perm users ∧
      (sortUsers users OrderByDesc OrderFieldAge).Pairwise (fun a b => b.Age ≤ a.Age)) ∧
    ((sortUsers users OrderByDesc OrderFieldName).Perm users ∧
      (sortUsers users OrderByDesc OrderFieldName).Pairwise
        (fun a b => ¬ List.Lex (· < ·) a.Name b.Name)) := by
  have hda : OrderByDesc ≠ OrderByAsc := by decide
  have hai : OrderFieldAge ≠ OrderFieldID := by decide
  have hni : OrderFieldName ≠ OrderFieldID := by decide
  have hna : OrderFieldName ≠ OrderFieldAge := by decide
  refine ⟨⟨sortUsers_perm _ _ _, ?_⟩, ⟨sortUsers_perm _ _ _, ?_⟩, ⟨sortUsers_perm _ _ _, ?_⟩,
    ⟨sortUsers_perm _ _ _, ?_⟩, ⟨sortUsers_perm _ _ _, ?_⟩, ⟨sortUsers_perm _ _ _, ?_⟩⟩
  · refine (sortUsers_sorted users OrderByAsc OrderFieldID).imp ?_
    intro a b h
    simpa [sortLess] using h
  · refine (sortUsers_sorted users OrderByAsc OrderFieldAge).imp ?_
    intro a b h
    simpa [sortLess, hai] using h
  · refine (sortUsers_sorted users OrderByAsc OrderFieldName).imp ?_
    intro a b h
    rw [← strLess_iff_lex]
    simpa [sortLess, hni, hna] using h
  · refine (sortUsers_sorted users OrderByDesc OrderFieldID).imp ?_
    intro a b h
    simpa [sortLess, hda] using h
  · refine (sortUsers_sorted users OrderByDesc OrderFieldAge).imp ?_
    intro a b h
    simpa [sortLess, hda, hai] using h
  · refine (sortUsers_sorted users OrderByDesc OrderFieldName).imp ?_
    intro a b h
    rw [← strLess_iff_lex]
    simpa [sortLess, hda, hni, hna] using h

theorem sortLess_same_key (orderBy : Int) (orderField : GoString) (a b : User)
    (hid : orderField = OrderFieldID → a.ID = b.ID)
    (hage : orderField = OrderFieldAge → a.Age = b.Age)
    (hname : orderField = OrderFieldName → a.Name = b.Name) :
    sortLess orderBy orderField a b = false := by
  unfold sortLess
  split_ifs with h1 h2 h3 h4 h5 h6 h7 h8 <;>
    first
      | rfl
      | (simp only [decide_eq_false_iff_not, gt_iff_lt]
         first | (have hk := hid ‹_›; omega) | (have hk := hage ‹_›; omega))
      | (rw [hname ‹_›]; exact strLess_irrefl _)

/-- Claim C4: `sortUsers` is stable for every direction: for each of the fields
id, age and name and each key value, the records carrying that key value
appear in the output in the same relative order as in the input; so a
descending sort is not the reverse of the ascending sort when keys tie. -/
theorem sortUsers_stable (users : Users) (orderBy : Int) :
    (∀ k : Int, (sortUsers users orderBy OrderFieldID).filter (fun u => decide (u.ID = k))
        = users.filter (fun u => decide (u.ID = k))) ∧
    (∀ k : Int, (sortUsers users orderBy OrderFieldAge).filter (fun u => decide (u.Age = k))
        = users.filter (fun u => decide (u.Age = k))) ∧
    (∀ k : GoString,
      (sortUsers users orderBy OrderFieldName).filter (fun u => decide (u.Name = k))
        = users.filter (fun u => decide (u.Name = k))) ∧
    (∃ tied : Users, sortUsers tied OrderByDesc OrderFieldAge
        ≠ (sortUsers tied OrderByAsc OrderFieldAge).reverse) := by
  have hai : OrderFieldAge ≠ OrderFieldID := by decide
  have hni : OrderFieldName ≠ OrderFieldID := by decide
  have hna : OrderFieldName ≠ OrderFieldAge := by decide
  refine ⟨fun k => ?_, fun k => ?_, fun k => ?_, ?_⟩
  · refine sort.SliceStable_filter _ _ ?_ users
    intro a b ha hb
    simp only [decide_eq_true_eq] at ha hb
    exact sortLess_same_key _ _ _ _ (fun _ => by rw [ha, hb])
      (fun h => absurd h.symm hai) (fun h => absurd h.symm hni)
  · refine sort.SliceStable_filter _ _ ?_ users
    intro a b ha hb
    simp only [decide_eq_true_eq] at ha hb
    exact sortLess_same_key _ _ _ _ (fun h => absurd h hai)
      (fun _ => by rw [ha, hb]) (fun h => absurd h.symm hna)
  · refine sort.SliceStable_filter _ _ ?_ users
    intro a b ha hb
    simp only [decide_eq_true_eq] at ha hb
    exact sortLess_same_key _ _ _ _ (fun h => absurd h hni)
      (fun h => absurd h hna) (fun _ => by rw [ha, hb])
  · exact ⟨[⟨1, [97], 40, [], []⟩, ⟨2, [98], 40, [], []⟩], by decide⟩

/-- Claim C5: with the unordered direction (`order_by = 0`) `sortUsers` returns
the input sequence unchanged, whatever the sort field. -/
theorem sortUsers_asis (users : Users) (orderField : GoString) :
    sortUsers users OrderByAsIs orderField = users := by
  refine sort.SliceStable_of_never_less _ ?_ users
  intro a b
  have h1 : OrderByAsIs ≠ OrderByAsc := by decide
  have h2 : OrderByAsIs ≠ OrderByDesc := by decide
  simp [sortLess, h1, h2]

/-! ## The filter stage -/

/-- The condition under which the first loop of `queryUsers` stores a record. -/
theorem queryStep_eq (query : GoString) (unique : Int → Option User) (user : User) :
    queryStep query unique user =
      if query = [] ∨ query <:+: user.Name ∨ query <:+: user.About then
        mapSet unique user.ID user
      else unique := by
  unfold queryStep
  cases query with
  | nil => simp
  | cons c cs =>
    simp only [List.length_cons, gt_iff_lt, Nat.zero_lt_succ, if_true, Bool.or_eq_true,
      strings.Contains_iff, false_or, reduceCtorEq]

theorem contains_of_eq_nil_or (query name about : GoString) :
    (query = [] ∨ query <:+: name ∨ query <:+: about) ↔ (query <:+: name ∨ query <:+: about) := by
  constructor
  · rintro (rfl | h)
    · exact Or.inl List.nil_infix
    · exact h
  · exact Or.inr

theorem queryStep_eq_of_contains (query : GoString) (unique : Int → Option User) (user : User) :
    queryStep query unique user =
      if query <:+: user.Name ∨ query <:+: user.About then mapSet unique user.ID user
      else unique := by
  rw [queryStep_eq]
  by_cases h : query <:+: user.Name ∨ query <:+: user.About
  · rw [if_pos h, if_pos (Or.inr h)]
  · rw [if_neg h, if_neg (fun h' => h ((contains_of_eq_nil_or _ _ _).1 h'))]

/-- Every entry of the map built by the first loop is an entry of the initial
map or a record of the input that passes the filter, stored under its own
identifier. -/
theorem foldl_queryStep_sound (query : GoString) (users : Users) :
    ∀ (m : Int → Option User) (k : Int) (v : User),
      users.foldl (queryStep query) m k = some v →
        m k = some v ∨
          (v ∈ users ∧ (query <:+: v.Name ∨ query <:+: v.About) ∧ v.ID = k) := by
  induction users with
  | nil => intro m k v h; exact Or.inl h
  | cons u us ih =>
    intro m k v h
    rw [List.foldl_cons] at h
    rcases ih _ k v h with h' | ⟨hmem, hp, hk⟩
    · rw [queryStep_eq_of_contains] at h'
      split_ifs at h' with hu
      · unfold mapSet at h'
        split_ifs at h' with hk
        · have hv : u = v := Option.some.inj h'
          subst hv
          exact Or.inr ⟨List.mem_cons_self _ _, hu, hk.symm⟩
        · exact Or.inl h'
      · exact Or.inl h'
    · exact Or.inr ⟨List.mem_cons_of_mem _ hmem, hp, hk⟩

/-- A key of the initial map, or the identifier of a passing record, is a key
of the map built by the first loop. -/
theorem foldl_queryStep_complete (query : GoString) (users : Users) :
    ∀ (m : Int → Option User) (k : Int),
      ((m k).isSome = true ∨
        ∃ v ∈ users, (query <:+: v.Name ∨ query <:+: v.About) ∧ v.ID = k) →
      (users.foldl (queryStep query) m k).isSome = true := by
  induction users with
  | nil =>
    intro m k h
    rcases h with h | ⟨v, hv, _⟩
    · exact h
    · cases hv
  | cons u us ih =>
    intro m k h
    rw [List.foldl_cons]
    apply ih
    rcases h with h | ⟨v, hv, hp, hk⟩
    · left
      rw [queryStep_eq_of_contains]
      split_ifs
      · unfold mapSet
        split_ifs
        · rfl
        · exact h
      · exact h
    · rcases List.mem_cons.1 hv with rfl | hv'
      · left
        rw [queryStep_eq_of_contains, if_pos hp]
        simp [mapSet, hk]
      · exact Or.inr ⟨v, hv', hp, hk⟩

theorem filterMap_eq_filter_of_forall {α : Type} (f : α → Option α) (p : α → Bool) :
    ∀ l : List α, (∀ a ∈ l, f a = if p a = true then some a else none) →
      l.filterMap f = l.filter p
  | [], _ => rfl
  | a :: l, h => by
    have ha := h a (List.mem_cons_self _ _)
    have ih := filterMap_eq_filter_of_forall f p l (fun b hb => h b (List.mem_cons_of_mem _ hb))
    by_cases hp : p a = true
    · rw [if_pos hp] at ha
      rw [List.filterMap_cons_some ha, List.filter_cons_of_pos hp, ih]
    · rw [if_neg hp] at ha
      rw [List.filterMap_cons_none ha, List.filter_cons_of_neg hp, ih]

theorem queryUsers_eq_filter_of_nodup (users : Users) (query : GoString)
    (hnodup : (users.map User.ID).Nodup) :
    queryUsers users query
      = users.filter (fun u => decide (query <:+: u.Name ∨ query <:+: u.About)) := by
  unfold queryUsers
  apply filterMap_eq_filter_of_forall
  intro u hu
  have hinj : ∀ v ∈ users, v.ID = u.ID → v = u := fun v hv hid =>
    List.inj_on_of_nodup_map hnodup hv hu hid
  by_cases hp : query <:+: u.Name ∨ query <:+: u.About
  · have hsome := foldl_queryStep_complete query users (fun _ => none) u.ID
      (Or.inr ⟨u, hu, hp, rfl⟩)
    obtain ⟨v, hv⟩ := Option.isSome_iff_exists.1 hsome
    rcases foldl_queryStep_sound query users _ _ _ hv with h | ⟨hmem, _, hid⟩
    · cases h
    · rw [hv, hinj v hmem hid]
      simp [hp]
  · have hnone : users.foldl (queryStep query) (fun _ => none) u.ID = none := by
      cases hv : users.foldl (queryStep query) (fun _ => none) u.ID with
      | none => rfl
      | some v =>
        rcases foldl_queryStep_sound query users _ _ _ hv with h | ⟨hmem, hpv, hid⟩
        · cases h
        · rw [hinj v hmem hid] at hpv
          exact absurd hpv hp
    rw [hnone]
    simp [hp]

/-- Claim C1: on a user sequence with pairwise distinct identifiers `queryUsers`
returns exactly the records whose Name or About contains the query as a
contiguous byte sequence, in their input order, and for the empty query it
returns the input. -/
theorem queryUsers_filter_contains (users : Users) (query : GoString)
    (hnodup : (users.map User.ID).Nodup) :
    queryUsers users query
        = users.filter (fun u => decide (query <:+: u.Name ∨ query <:+: u.About)) ∧
      queryUsers users [] = users := by
  refine ⟨queryUsers_eq_filter_of_nodup users query hnodup, ?_⟩
  rw [queryUsers_eq_filter_of_nodup users [] hnodup]
  simp [ List.nil_infix]

/-- Witness of claim C1: three records with distinct identifiers, the query
"cillum". -/
theorem queryUsers_filter_contains_witness :
    (sampleUsers.map User.ID).Nodup ∧
      (queryUsers sampleUsers (ascii "cillum")
          = sampleUsers.filter
              (fun u => decide (ascii "cillum" <:+: u.Name ∨ ascii "cillum" <:+: u.About)) ∧
        queryUsers sampleUsers [] = sampleUsers) :=
  ⟨by decide, queryUsers_filter_contains sampleUsers (ascii "cillum") (by decide)⟩

/-- Claim C2, evaluated on the code: on two records that share the identifier 1
and both pass the empty query, `queryUsers` emits two records with that
identifier, both equal to the later record. -/
theorem queryUsers_duplicate_id :
    queryUsers [dupFirst, dupSecond] [] = [dupSecond, dupSecond] := by
  decide

/-! ## Pagination -/

theorem wrapInt_of_range (x : Int) (h1 : -(2 ^ 63) ≤ x) (h2 : x ≤ maxInt) : wrapInt x = x := by
  unfold wrapInt maxInt at *
  omega

theorem wrapInt_of_overflow (x : Int) (h1 : maxInt < x) (h2 : x ≤ 2 * maxInt) :
    wrapInt x < 0 := by
  unfold wrapInt maxInt at *
  omega

theorem clampedOffset_bounds (len offset : Int) (hlen : 0 ≤ len) (ho : 0 ≤ offset) :
    0 ≤ clampedOffset len offset ∧ clampedOffset len offset ≤ len := by
  unfold clampedOffset
  split_ifs <;> omega

theorem drop_pred_length {α : Type} (l : List α) (h : l ≠ []) :
    l.drop (l.length - 1) = [l.getLast h] := by
  have happ := List.dropLast_append_getLast h
  have hlen : l.dropLast.length = l.length - 1 := List.length_dropLast l
  calc l.drop (l.length - 1)
      = (l.dropLast ++ [l.getLast h]).drop l.dropLast.length := by rw [happ, hlen]
    _ = [l.getLast h] := List.drop_left _ _

/-- The result of `limitOffsetUsers` on validated arguments: the window of
`limit` records after the clamped offset when the sum of the clamped offset
and the limit is an `int`, a panic otherwise. -/
theorem limitOffsetUsers_eq (users : Users) (limit offset : Int)
    (hl : 0 ≤ limit) (hlmax : limit ≤ maxInt) (ho : 0 ≤ offset)
    (hlen : (users.length : Int) ≤ maxInt) :
    limitOffsetUsers users limit offset =
      if clampedOffset users.length offset + limit ≤ maxInt then
        some ((users.drop (clampedOffset users.length offset).toNat).take limit.toNat)
      else none := by
  have hb := clampedOffset_bounds users.length offset (Int.natCast_nonneg _) ho
  have hoff : (if offset ≥ (users.length : Int) then
      (if (users.length : Int) - 1 < 0 then 0 else (users.length : Int) - 1) else offset)
      = clampedOffset users.length offset := by
    unfold clampedOffset
    split_ifs <;> omega
  unfold limitOffsetUsers
  simp only [hoff]
  generalize clampedOffset users.length offset = o at hb ⊢
  by_cases hsum : o + limit ≤ maxInt
  · rw [wrapInt_of_range _ (by omega) hsum, if_pos hsum]
    by_cases hgt : o + limit > users.length
    · rw [if_pos hgt, if_pos ⟨hb.1, hb.2, le_refl _⟩]
      congr 1
      rw [List.take_of_length_le, List.take_of_length_le]
      · rw [List.length_drop]; omega
      · rw [List.length_drop]; omega
    · rw [if_neg hgt, if_pos ⟨hb.1, by omega, by omega⟩]
      congr 2
      omega
  · have hneg := wrapInt_of_overflow (o + limit) (by omega) (by omega)
    rw [if_neg hsum]
    have hle : ¬ wrapInt (o + limit) > (users.length : Int) := by omega
    rw [if_neg hle, if_neg]
    omega

/-- A window returned by `limitOffsetUsers` has at most `limit` records. -/
theorem limitOffsetUsers_length_le (users : Users) (limit offset : Int) (r : Users)
    (hl : 0 ≤ limit) (h : limitOffsetUsers users limit offset = some r) :
    (r.length : Int) ≤ limit := by
  unfold limitOffsetUsers at h
  simp only at h
  split_ifs at h with h1 h2 h3 h4 h5 h6 <;>
    (have hr := (Option.some.inj h).symm
     subst hr
     rw [List.length_take, List.length_drop]
     unfold wrapInt at *
     omega)

/-- On a non-empty sequence, with an offset at or beyond its length and a limit
of at least 1, `limitOffsetUsers` returns the last record alone. -/
theorem limitOffsetUsers_beyond_end_last (users : Users) (limit offset : Int)
    (hlen : (users.length : Int) ≤ maxInt) (hne : users ≠ []) (hl : 1 ≤ limit)
    (ho : (users.length : Int) ≤ offset)
    (hsum : (users.length : Int) - 1 + limit ≤ maxInt) :
    limitOffsetUsers users limit offset = some [users.getLast hne] := by
  have hp : 0 < users.length := List.length_pos.2 hne
  have hc : clampedOffset users.length offset = (users.length : Int) - 1 := by
    unfold clampedOffset
    split_ifs <;> omega
  rw [limitOffsetUsers_eq users limit offset (by omega) (by omega) (by omega) hlen, hc,
    if_pos hsum]
  have hn : ((users.length : Int) - 1).toNat = users.length - 1 := by omega
  rw [hn, drop_pred_length users hne]
  congr 1
  apply List.take_of_length_le
  simp only [List.length_singleton]
  omega

/-- Claim C6, evaluated on the code: with three records, the limit
9223372036854775807 and the offset 1, the sum `offset + limit` wraps around to
a negative bound and the slice expression of `limitOffsetUsers` panics. -/
theorem limitOffsetUsers_max_limit_panics :
    limitOffsetUsers sampleUsers 9223372036854775807 1 = none := by
  decide

/-- Claim C7: for a limit and an offset that are not negative, every sequence
returned by the pipeline sort, filter, paginate has at most `limit` records,
and the pipeline does return a sequence whenever the sum of the clamped offset
and the limit is an `int`. -/
theorem pipeline_length_le_limit (users : Users) (orderBy : Int)
    (orderField query : GoString) (limit offset : Int)
    (hl : 0 ≤ limit) (ho : 0 ≤ offset) :
    (∀ r, pipeline users orderBy orderField query limit offset = some r →
        (r.length : Int) ≤ limit) ∧
      (limit ≤ maxInt →
        ((queryUsers (sortUsers users orderBy orderField) query).length : Int) ≤ maxInt →
        clampedOffset (queryUsers (sortUsers users orderBy orderField) query).length offset
            + limit ≤ maxInt →
        ∃ r, pipeline users orderBy orderField query limit offset = some r ∧
          (r.length : Int) ≤ limit) := by
  refine ⟨fun r h => limitOffsetUsers_length_le _ limit offset r hl h, ?_⟩
  intro hlmax hlen hsum
  have h := limitOffsetUsers_eq _ limit offset hl hlmax ho hlen
  rw [if_pos hsum] at h
  exact ⟨_, h, limitOffsetUsers_length_le _ limit offset _ hl h⟩

/-- Witness of claim C7: three records, the query "cillum", limit 2, offset 0, descending by age. -/
theorem pipeline_length_le_limit_witness :
    (∀ r, pipeline sampleUsers OrderByDesc OrderFieldAge (ascii "cillum") 2 0 = some r →
        (r.length : Int) ≤ 2) ∧
      ∃ r, pipeline sampleUsers OrderByDesc OrderFieldAge (ascii "cillum") 2 0 = some r ∧
        (r.length : Int) ≤ 2 :=
  ⟨(pipeline_length_le_limit sampleUsers OrderByDesc OrderFieldAge (ascii "cillum") 2 0
      (by decide) (by decide)).1,
    (pipeline_length_le_limit sampleUsers OrderByDesc OrderFieldAge (ascii "cillum") 2 0
      (by decide) (by decide)).2 (by decide) (by decide) (by decide)⟩

/-- Claim C8, as stated, fails: on a sequence of one record, with the valid
limit 0 and the offset 5 beyond the end, `limitOffsetUsers` returns the empty
sequence and not the last record. -/
theorem limitOffsetUsers_zero_limit_empty :
    limitOffsetUsers [dupFirst] 0 5 = some [] ∧
      limitOffsetUsers [dupFirst] 0 5 ≠ some [dupFirst] := by
  decide

/-- Claim C8, amended: on a non-empty sequence and an offset at or beyond its
length, `limitOffsetUsers` returns exactly the last record for every limit of
at least 1 (the length minus one plus the limit being an `int`) and the empty
sequence for the limit 0; on the empty sequence it returns the empty sequence
for every valid offset and limit. -/
theorem limitOffsetUsers_offset_beyond_end (users : Users) (limit offset : Int)
    (hlen : (users.length : Int) ≤ maxInt) :
    (∀ hne : users ≠ [], 1 ≤ limit → (users.length : Int) ≤ offset →
        (users.length : Int) - 1 + limit ≤ maxInt →
        limitOffsetUsers users limit offset = some [users.getLast hne]) ∧
      (users ≠ [] → (users.length : Int) ≤ offset →
        limitOffsetUsers users 0 offset = some []) ∧
      (0 ≤ limit → limit ≤ maxInt → 0 ≤ offset →
        limitOffsetUsers [] limit offset = some []) := by
  have hpos : users ≠ [] → 0 < users.length := fun h => List.length_pos.2 h
  refine ⟨?_, ?_, ?_⟩
  · intro hne hl ho hsum
    exact limitOffsetUsers_beyond_end_last users limit offset hlen hne hl ho hsum
  · intro hne ho
    have hp := hpos hne
    rw [limitOffsetUsers_eq users 0 offset (le_refl _) (by unfold maxInt; omega) (by omega) hlen]
    have hc : clampedOffset users.length offset = (users.length : Int) - 1 := by
      unfold clampedOffset
      split_ifs <;> omega
    rw [hc, if_pos (by omega)]
    simp
  · intro hl hlmax ho
    rw [limitOffsetUsers_eq [] limit offset hl hlmax ho (by unfold maxInt; simp)]
    have hc : clampedOffset (([] : Users).length) offset = 0 := by
      unfold clampedOffset
      simp only [List.length_nil, Nat.cast_zero]
      split_ifs <;> omega
    rw [hc, if_pos (by omega)]
    simp

/-- Witness of the amended claim C8: three records, the limits 4 and 0, the
offset 7. -/
theorem limitOffsetUsers_offset_beyond_end_witness :
    limitOffsetUsers sampleUsers 4 7 = some [sampleUsers.getLast (by decide)] ∧
      limitOffsetUsers sampleUsers 0 7 = some [] ∧
      limitOffsetUsers [] 4 7 = some [] :=
  ⟨(limitOffsetUsers_offset_beyond_end sampleUsers 4 7 (by decide)).1
      (by decide) (by decide) (by decide) (by decide),
    (limitOffsetUsers_offset_beyond_end sampleUsers 4 7 (by decide)).2.1
      (by decide) (by decide),
    (limitOffsetUsers_offset_beyond_end sampleUsers 4 7 (by decide)).2.2
      (by decide) (by decide) (by decide)⟩

/-- Claim C9, as stated, fails: on a sequence of one record, with the page size
0 and the offset 1, `limitOffsetUsers` with limit 0 + 1 returns 0 + 1 records
although no record lies at a position from the offset on. -/
theorem limitOffsetUsers_next_page_clamped :
    limitOffsetUsers [dupSecond] (0 + 1) 1 = some [dupSecond] ∧
      ¬ (0 < ([dupSecond].drop 1).length) := by
  decide

/-- Claim C9, amended: for a page size `L` and an offset, `limitOffsetUsers` with
limit `L + 1` returns `L + 1` records if and only if more than `L` records lie at
positions from the offset on, provided `L ≥ 1`, or the offset is inside the
sequence, or the sequence is empty; in the remaining case (page size 0,
non-empty sequence, offset at or beyond its length) it returns one record, the
last, although no record lies at a position from the offset on. -/
theorem limitOffsetUsers_next_page (users : Users) (L offset : Int)
    (hL : 0 ≤ L) (hLmax : L + 1 ≤ maxInt) (ho : 0 ≤ offset)
    (hlen : (users.length : Int) ≤ maxInt) :
    ((1 ≤ L ∨ offset < users.length ∨ users = []) →
        ((∃ r, limitOffsetUsers users (L + 1) offset = some r ∧ (r.length : Int) = L + 1) ↔
          L < ((users.drop offset.toNat).length : Int))) ∧
      (∀ hne : users ≠ [], L = 0 → (users.length : Int) ≤ offset →
        limitOffsetUsers users (L + 1) offset = some [users.getLast hne] ∧
          (users.drop offset.toNat).length = 0) := by
  constructor
  · intro hcase
    rw [limitOffsetUsers_eq users (L + 1) offset (by omega) hLmax ho hlen]
    have hnil : users = [] → users.length = 0 := fun h => by rw [h]; rfl
    have hpos : users ≠ [] → 0 < users.length := fun h => List.length_pos.2 h
    by_cases hsum : clampedOffset users.length offset + (L + 1) ≤ maxInt
    · rw [if_pos hsum]
      constructor
      · rintro ⟨r, hr, hrl⟩
        have hr' := (Option.some.inj hr).symm
        subst hr'
        rw [List.length_take, List.length_drop] at hrl
        rw [List.length_drop]
        unfold clampedOffset at hrl
        split_ifs at hrl with hlt
        · omega
        · rcases hcase with h | h | h
          · omega
          · omega
          · have := hnil h
            omega
      · intro h
        rw [List.length_drop] at h
        refine ⟨_, rfl, ?_⟩
        rw [List.length_take, List.length_drop]
        unfold clampedOffset
        split_ifs with hlt
        · omega
        · omega
    · rw [if_neg hsum]
      constructor
      · rintro ⟨r, hr, _⟩
        cases hr
      · intro h
        rw [List.length_drop] at h
        unfold clampedOffset at hsum
        split_ifs at hsum with hlt
        · omega
        · omega
  · intro hne hL0 hoff
    subst hL0
    have h := limitOffsetUsers_beyond_end_last users (0 + 1) offset hlen hne
      (by omega) hoff (by omega)
    refine ⟨h, ?_⟩
    rw [List.length_drop]
    omega

/-- Witness of the amended claim C9: three records, page size 1; from
offset 1 two records remain and 1 + 1 records are returned. -/
theorem limitOffsetUsers_next_page_witness :
    (∃ r, limitOffsetUsers sampleUsers (1 + 1) 1 = some r ∧ (r.length : Int) = 1 + 1) ↔
      (1 : Int) < ((sampleUsers.drop (1 : Int).toNat).length : Int) :=
  (limitOffsetUsers_next_page sampleUsers 1 1 (by decide) (by decide) (by decide)
    (by decide)).1 (Or.inl (by decide))

/-! ## The handler -/

theorem parseLimitParam_error (r : Request) (e : GoString)
    (h : parseLimitParam r = Except.error e) : e = ErrorBadLimit := by
  unfold parseLimitParam at h
  split at h
  · exact (Except.error.inj h).symm
  · split_ifs at h
    exact (Except.error.inj h).symm

theorem parseOffsetParam_error (r : Request) (e : GoString)
    (h : parseOffsetParam r = Except.error e) : e = ErrorBadOffset := by
  unfold parseOffsetParam at h
  split at h
  · exact (Except.error.inj h).symm
  · split_ifs at h
    exact (Except.error.inj h).symm

theorem parseOrderFieldParam_error (mapLower : GoString → GoString) (r : Request)
    (e : GoString) (h : parseOrderFieldParam mapLower r = Except.error e) :
    e = ErrorBadOrderField := by
  unfold parseOrderFieldParam at h
  simp only at h
  split_ifs at h
  exact (Except.error.inj h).symm

theorem parseOrderByParam_error (r : Request) (e : GoString)
    (h : parseOrderByParam r = Except.error e) : e = ErrorBadOrderBy := by
  unfold parseOrderByParam at h
  split at h
  · exact (Except.error.inj h).symm
  · split_ifs at h
    exact (Except.error.inj h).symm

/-- With the valid token and a loaded data set, the handler reports the first
invalid parameter in the order limit, offset, order_field, order_by with the
status 400; when the four parameters are valid it answers 200 with the result
of the pipeline, unless the pipeline panics. -/
theorem SearchServer_validation_order (mapLower : GoString → GoString) (src : Source)
    (r : Request) (users : Users)
    (htoken : r.AccessToken = ascii "token") (hload : loadUsers src = Except.ok users) :
    (∀ e, parseLimitParam r = Except.error e →
        SearchServer mapLower src r = some (badRequest ErrorBadLimit)) ∧
      (∀ limit e, parseLimitParam r = Except.ok limit →
        parseOffsetParam r = Except.error e →
        SearchServer mapLower src r = some (badRequest ErrorBadOffset)) ∧
      (∀ limit offset e, parseLimitParam r = Except.ok limit →
        parseOffsetParam r = Except.ok offset →
        parseOrderFieldParam mapLower r = Except.error e →
        SearchServer mapLower src r = some (badRequest ErrorBadOrderField)) ∧
      (∀ limit offset orderField e, parseLimitParam r = Except.ok limit →
        parseOffsetParam r = Except.ok offset →
        parseOrderFieldParam mapLower r = Except.ok orderField →
        parseOrderByParam r = Except.error e →
        SearchServer mapLower src r = some (badRequest ErrorBadOrderBy)) ∧
      (∀ limit offset orderField orderBy, parseLimitParam r = Except.ok limit →
        parseOffsetParam r = Except.ok offset →
        parseOrderFieldParam mapLower r = Except.ok orderField →
        parseOrderByParam r = Except.ok orderBy →
        SearchServer mapLower src r =
          (pipeline users orderBy orderField (parseQueryParam r) limit offset).map ok) := by
  refine ⟨?_, ?_, ?_, ?_, ?_⟩
  · intro e h1
    have := parseLimitParam_error r e h1
    subst this
    simp [SearchServer, htoken, hload, h1]
  · intro limit e h1 h2
    have := parseOffsetParam_error r e h2
    subst this
    simp [SearchServer, htoken, hload, h1, h2]
  · intro limit offset e h1 h2 h3
    have := parseOrderFieldParam_error mapLower r e h3
    subst this
    simp [SearchServer, htoken, hload, h1, h2, h3]
  · intro limit offset orderField e h1 h2 h3 h4
    have := parseOrderByParam_error r e h4
    subst this
    simp [SearchServer, htoken, hload, h1, h2, h3, h4]
  · intro limit offset orderField orderBy h1 h2 h3 h4
    simp only [SearchServer, htoken, hload, h1, h2, h3, h4, pipeline, ne_eq, not_true_eq_false,
      if_false]
    cases limitOffsetUsers (queryUsers (sortUsers users orderBy orderField) (parseQueryParam r))
      limit offset <;> rfl

/-- Claim C10, evaluated on the code: the request `limit=9223372036854775807`,
`offset=1`, `order_field=name`, `order_by=0` with the valid token over a data
set of two rows is valid in all four parameters, and the handler panics instead
of answering 200; the same request with the limit and the offset both replaced
by `-1` is answered 400 with the message of the limit. -/
theorem SearchServer_valid_request_panics :
    parseLimitParam (sampleRequest (ascii "9223372036854775807") (ascii "1"))
        = Except.ok 9223372036854775807 ∧
      parseOffsetParam (sampleRequest (ascii "9223372036854775807") (ascii "1"))
        = Except.ok 1 ∧
      parseOrderFieldParam id (sampleRequest (ascii "9223372036854775807") (ascii "1"))
        = Except.ok OrderFieldName ∧
      parseOrderByParam (sampleRequest (ascii "9223372036854775807") (ascii "1"))
        = Except.ok 0 ∧
      SearchServer id (Source.dataset sampleRows)
        (sampleRequest (ascii "9223372036854775807") (ascii "1")) = none ∧
      SearchServer id (Source.dataset sampleRows)
        (sampleRequest (ascii "-1") (ascii "-1")) = some (badRequest ErrorBadLimit) := by
  refine ⟨by rfl, by rfl, by rfl, by rfl, by decide, by decide⟩

/-! ## The validators -/

theorem decimalValue_cons (c : Nat) (s : GoString) :
    decimalValue (c :: s) = (c - 48) * 10 ^ s.length + decimalValue s := by
  unfold decimalValue
  rw [List.reverse_cons, List.map_append, Nat.ofDigits_append]
  simp only [List.length_map, List.length_reverse, List.map_cons, List.map_nil,
    Nat.ofDigits_singleton]
  ring

theorem strconv.digits_eq_some_iff : ∀ (s : GoString) (acc v : Nat),
    strconv.digits s acc = some v ↔
      (∀ c ∈ s, 48 ≤ c ∧ c ≤ 57) ∧ v = acc * 10 ^ s.length + decimalValue s
  | [], acc, v => by
    simp [strconv.digits, decimalValue, eq_comm]
  | c :: s, acc, v => by
    simp only [strconv.digits]
    split_ifs with hc
    · rw [strconv.digits_eq_some_iff s _ v, decimalValue_cons]
      simp only [List.mem_cons, forall_eq_or_imp, List.length_cons]
      constructor
      · rintro ⟨hs, hv⟩
        refine ⟨⟨hc, hs⟩, ?_⟩
        rw [hv]; ring
      · rintro ⟨⟨_, hs⟩, hv⟩
        refine ⟨hs, ?_⟩
        rw [hv]; ring
    · simp only [List.mem_cons, forall_eq_or_imp, false_iff, not_and, reduceCtorEq]
      intro h
      exact absurd h.1 hc

/-- The text that `strconv.Atoi` reads as digits: the text without its sign. -/
theorem IsDecimal_iff (s : GoString) (n : Int) :
    IsDecimal s n ↔
      (if s.head? = some 45 ∨ s.head? = some 43 then s.tail else s) ≠ [] ∧
      (∀ c ∈ (if s.head? = some 45 ∨ s.head? = some 43 then s.tail else s),
        48 ≤ c ∧ c ≤ 57) ∧
      n = if s.head? = some 45 then
            -(decimalValue (if s.head? = some 45 ∨ s.head? = some 43 then s.tail else s) : Int)
          else (decimalValue (if s.head? = some 45 ∨ s.head? = some 43 then s.tail else s) : Int)
    := by
  constructor
  · rintro ⟨sign, digits, hs, hsign, hne, hdig, hn⟩
    rcases hsign with rfl | rfl | rfl
    · obtain ⟨d, ds, rfl⟩ := List.exists_cons_of_ne_nil hne
      have hd := hdig d (List.mem_cons_self _ _)
      have h45 : d ≠ 45 := by omega
      have h43 : d ≠ 43 := by omega
      subst hs
      simp only [List.nil_append, List.head?_cons, Option.some.injEq, h45, h43, or_self,
        if_false] at hn ⊢
      exact ⟨by simp, hdig, by simpa using hn⟩
    · subst hs
      simp only [List.singleton_append, List.head?_cons, Option.some.injEq, List.tail_cons]
      refine ⟨by simpa using hne, by simpa using hdig, ?_⟩
      simpa using hn
    · subst hs
      simp only [List.singleton_append, List.head?_cons, Option.some.injEq, List.tail_cons]
      refine ⟨by simpa using hne, by simpa using hdig, ?_⟩
      simpa using hn
  · rintro ⟨hne, hdig, hn⟩
    cases s with
    | nil => simp at hne
    | cons c t =>
      simp only [List.head?_cons, Option.some.injEq, List.tail_cons] at hne hdig hn
      by_cases h45 : c = 45
      · subst h45
        simp only [true_or, if_true] at hne hdig hn
        exact ⟨[45], t, rfl, Or.inr (Or.inr rfl), hne, hdig, by simpa using hn⟩
      · by_cases h43 : c = 43
        · subst h43
          simp only [or_true, if_true] at hne hdig hn
          exact ⟨[43], t, rfl, Or.inr (Or.inl rfl), hne, hdig, by simpa using hn⟩
        · simp only [h45, h43, or_self, if_false] at hne hdig hn
          exact ⟨[], c :: t, rfl, Or.inl rfl, hne, hdig, by simpa using hn⟩

/-- The function `strconv.Atoi` succeeds with `n` exactly on the decimal
numerals of a value `n` in the range of `int`. -/
theorem strconv.Atoi_eq_some_iff (s : GoString) (n : Int) :
    strconv.Atoi s = some n ↔ IsDecimal s n ∧ -(2 ^ 63) ≤ n ∧ n ≤ maxInt := by
  rw [IsDecimal_iff]
  unfold strconv.Atoi
  simp only
  generalize (if s.head? = some 45 ∨ s.head? = some 43 then s.tail else s) = body
  by_cases hb : body = []
  · simp [hb]
  · rw [if_neg hb]
    cases hd : strconv.digits body 0 with
    | none =>
      constructor
      · intro h
        cases h
      · rintro ⟨⟨_, hdig, _⟩, _⟩
        have := (strconv.digits_eq_some_iff body 0 (decimalValue body)).2 ⟨hdig, by simp⟩
        rw [hd] at this
        cases this
    | some v =>
      obtain ⟨hdig, hv⟩ := (strconv.digits_eq_some_iff body 0 v).1 hd
      simp only [zero_mul, zero_add] at hv
      subst hv
      simp only
      generalize (if s.head? = some 45 then -(decimalValue body : Int)
        else (decimalValue body : Int)) = w
      constructor
      · intro h
        split_ifs at h with hr
        have hn := Option.some.inj h
        subst hn
        exact ⟨⟨hb, hdig, rfl⟩, hr.1, hr.2⟩
      · rintro ⟨⟨_, _, hn⟩, h1, h2⟩
        subst hn
        rw [if_pos ⟨h1, h2⟩]

/-- Claim C11: `parseLimitParam` succeeds with `n` exactly when the text of
`limit` is a decimal numeral of a value `n` with `0 ≤ n` in the range of `int`,
returning that value unchanged, and fails with "limit invalid" on every other
text, the absent or empty one included; likewise `parseOffsetParam` with the
text of `offset` and "offset invalid". -/
theorem parseLimitParam_parseOffsetParam_iff (r : Request) :
    (∀ n, parseLimitParam r = Except.ok n ↔
        IsDecimal (Values.Get r.Query (ascii "limit")) n ∧ 0 ≤ n ∧ n ≤ maxInt) ∧
      ((¬ ∃ n, IsDecimal (Values.Get r.Query (ascii "limit")) n ∧ 0 ≤ n ∧ n ≤ maxInt) →
        parseLimitParam r = Except.error ErrorBadLimit) ∧
      (r.Query (ascii "limit") = [] ∨ r.Query (ascii "limit") = [[]] →
        parseLimitParam r = Except.error ErrorBadLimit) ∧
      (∀ n, parseOffsetParam r = Except.ok n ↔
        IsDecimal (Values.Get r.Query (ascii "offset")) n ∧ 0 ≤ n ∧ n ≤ maxInt) ∧
      ((¬ ∃ n, IsDecimal (Values.Get r.Query (ascii "offset")) n ∧ 0 ≤ n ∧ n ≤ maxInt) →
        parseOffsetParam r = Except.error ErrorBadOffset) ∧
      (r.Query (ascii "offset") = [] ∨ r.Query (ascii "offset") = [[]] →
        parseOffsetParam r = Except.error ErrorBadOffset) := by
  have key : ∀ (text : GoString) (err : GoString) (n : Int),
      (match strconv.Atoi text with
        | none => (Except.error err : Except GoString Int)
        | some v => if v < 0 then Except.error err else Except.ok v) = Except.ok n ↔
      IsDecimal text n ∧ 0 ≤ n ∧ n ≤ maxInt := by
    intro text err n
    cases h : strconv.Atoi text with
    | none =>
      simp only [reduceCtorEq, false_iff, not_and]
      intro hd h0 hmax
      have := (strconv.Atoi_eq_some_iff text n).2 ⟨hd, by omega, hmax⟩
      rw [h] at this
      cases this
    | some v =>
      obtain ⟨hd, h1, h2⟩ := (strconv.Atoi_eq_some_iff text v).1 h
      simp only
      constructor
      · intro hv
        split_ifs at hv with hneg
        have hn := Except.ok.inj hv
        subst hn
        exact ⟨hd, by omega, h2⟩
      · rintro ⟨hd', h0, hmax⟩
        have := (strconv.Atoi_eq_some_iff text n).2 ⟨hd', by omega, hmax⟩
        rw [h] at this
        have hn := Option.some.inj this
        subst hn
        rw [if_neg (by omega)]
  have other : ∀ (text : GoString) (err : GoString),
      (¬ ∃ n, IsDecimal text n ∧ 0 ≤ n ∧ n ≤ maxInt) →
      (match strconv.Atoi text with
        | none => (Except.error err : Except GoString Int)
        | some v => if v < 0 then Except.error err else Except.ok v) = Except.error err := by
    intro text err hno
    cases h : strconv.Atoi text with
    | none => rfl
    | some v =>
      simp only
      split_ifs with hneg
      · rfl
      · obtain ⟨hd, _, h2⟩ := (strconv.Atoi_eq_some_iff text v).1 h
        exact absurd ⟨v, hd, by omega, h2⟩ hno
  have empty : ∀ (vals : List GoString), vals = [] ∨ vals = [[]] → vals.headD [] = [] := by
    rintro vals (rfl | rfl) <;> rfl
  have atoiNil : strconv.Atoi [] = none := by decide
  refine ⟨fun n => key _ _ n, other _ _, ?_, fun n => key _ _ n, other _ _, ?_⟩
  · intro h
    unfold parseLimitParam Values.Get
    rw [empty _ h, atoiNil]
  · intro h
    unfold parseOffsetParam Values.Get
    rw [empty _ h, atoiNil]

/-- Claim C13: `parseOrderByParam` succeeds with `n` exactly when the text of
`order_by` is a decimal numeral of a value `n` among -1, 0 and 1, returning that
value, and fails with "order_by invalid" on every other text, the absent or
empty one included. -/
theorem parseOrderByParam_iff (r : Request) :
    (∀ n, parseOrderByParam r = Except.ok n ↔
        IsDecimal (Values.Get r.Query (ascii "order_by")) n ∧ (n = -1 ∨ n = 0 ∨ n = 1)) ∧
      ((¬ ∃ n, IsDecimal (Values.Get r.Query (ascii "order_by")) n ∧
          (n = -1 ∨ n = 0 ∨ n = 1)) →
        parseOrderByParam r = Except.error ErrorBadOrderBy) ∧
      (r.Query (ascii "order_by") = [] ∨ r.Query (ascii "order_by") = [[]] →
        parseOrderByParam r = Except.error ErrorBadOrderBy) := by
  have hmax : maxInt = 9223372036854775807 := by decide
  refine ⟨?_, ?_, ?_⟩
  · intro n
    unfold parseOrderByParam
    cases h : strconv.Atoi (Values.Get r.Query (ascii "order_by")) with
    | none =>
      simp only [reduceCtorEq, false_iff, not_and]
      intro hd hn
      have := (strconv.Atoi_eq_some_iff _ n).2 ⟨hd, by omega, by omega⟩
      rw [h] at this
      cases this
    | some v =>
      obtain ⟨hd, _, _⟩ := (strconv.Atoi_eq_some_iff _ v).1 h
      simp only
      constructor
      · intro hv
        split_ifs at hv with hout
        have hn := Except.ok.inj hv
        subst hn
        exact ⟨hd, by omega⟩
      · rintro ⟨hd', hn⟩
        have := (strconv.Atoi_eq_some_iff _ n).2 ⟨hd', by omega, by omega⟩
        rw [h] at this
        have hvn := Option.some.inj this
        subst hvn
        rw [if_neg (by omega)]
  · intro hno
    unfold parseOrderByParam
    cases h : strconv.Atoi (Values.Get r.Query (ascii "order_by")) with
    | none => rfl
    | some v =>
      simp only
      split_ifs with hout
      · rfl
      · obtain ⟨hd, _, _⟩ := (strconv.Atoi_eq_some_iff _ v).1 h
        exact absurd ⟨v, hd, by omega⟩ hno
  · intro h
    have hget : Values.Get r.Query (ascii "order_by") = [] := by
      unfold Values.Get
      rcases h with h | h <;> rw [h] <;> rfl
    unfold parseOrderByParam
    rw [hget]
    rfl

theorem parseLimitParam_withParam (r : Request) (key value : GoString)
    (h : ascii "limit" ≠ key) :
    parseLimitParam (r.withParam key value) = parseLimitParam r := by
  unfold parseLimitParam Values.Get Request.withParam
  simp only [if_neg h]

theorem parseOffsetParam_withParam (r : Request) (key value : GoString)
    (h : ascii "offset" ≠ key) :
    parseOffsetParam (r.withParam key value) = parseOffsetParam r := by
  unfold parseOffsetParam Values.Get Request.withParam
  simp only [if_neg h]

theorem parseOrderByParam_withParam (r : Request) (key value : GoString)
    (h : ascii "order_by" ≠ key) :
    parseOrderByParam (r.withParam key value) = parseOrderByParam r := by
  unfold parseOrderByParam Values.Get Request.withParam
  simp only [if_neg h]

theorem parseQueryParam_withParam (r : Request) (key value : GoString)
    (h : ascii "query" ≠ key) :
    parseQueryParam (r.withParam key value) = parseQueryParam r := by
  unfold parseQueryParam Values.Get Request.withParam
  simp only [if_neg h]

/-- Claim C12: `parseOrderFieldParam` accepts the text of `order_field` exactly
when its lower-casing by `strings.ToLower` is one of id, age, name or the empty
string; it then returns the lower-cased text, the empty one replaced by "name",
and otherwise fails with the order_field error; on a text of ASCII bytes the
lower-casing maps the letters `A` to `Z` to `a` to `z` and nothing else; a
request with the empty order_field gets the response of the same request with
order_field = name. -/
theorem parseOrderFieldParam_iff (mapLower : GoString → GoString) (r : Request) :
    ((∃ f, parseOrderFieldParam mapLower r = Except.ok f) ↔
        strings.ToLower mapLower (Values.Get r.Query (ascii "order_field")) = OrderFieldID ∨
        strings.ToLower mapLower (Values.Get r.Query (ascii "order_field")) = OrderFieldAge ∨
        strings.ToLower mapLower (Values.Get r.Query (ascii "order_field")) = OrderFieldName ∨
        strings.ToLower mapLower (Values.Get r.Query (ascii "order_field")) = OrderFieldEmpty) ∧
      (∀ f, parseOrderFieldParam mapLower r = Except.ok f →
        f = if strings.ToLower mapLower (Values.Get r.Query (ascii "order_field"))
              = OrderFieldEmpty then OrderFieldName
            else strings.ToLower mapLower (Values.Get r.Query (ascii "order_field"))) ∧
      ((¬ ∃ f, parseOrderFieldParam mapLower r = Except.ok f) →
        parseOrderFieldParam mapLower r = Except.error ErrorBadOrderField) ∧
      ((∀ c ∈ Values.Get r.Query (ascii "order_field"), c < 128) →
        strings.ToLower mapLower (Values.Get r.Query (ascii "order_field")) =
          (Values.Get r.Query (ascii "order_field")).map
            (fun c => if 65 ≤ c ∧ c ≤ 90 then c + 32 else c)) ∧
      (∀ src, SearchServer mapLower src (r.withParam (ascii "order_field") OrderFieldEmpty) =
        SearchServer mapLower src (r.withParam (ascii "order_field") OrderFieldName)) := by
  have hie : OrderFieldID ≠ OrderFieldEmpty := by decide
  have hae : OrderFieldAge ≠ OrderFieldEmpty := by decide
  have hne : OrderFieldName ≠ OrderFieldEmpty := by decide
  refine ⟨?_, ?_, ?_, ?_, ?_⟩
  · unfold parseOrderFieldParam
    simp only
    constructor
    · rintro ⟨f, hf⟩
      split_ifs at hf with h1 h2
      · rcases h1 with h | h | h
        · exact Or.inl h
        · exact Or.inr (Or.inl h)
        · exact Or.inr (Or.inr (Or.inl h))
      · exact Or.inr (Or.inr (Or.inr h2))
    · rintro (h | h | h | h)
      · exact ⟨_, by rw [if_pos (Or.inl h)]⟩
      · exact ⟨_, by rw [if_pos (Or.inr (Or.inl h))]⟩
      · exact ⟨_, by rw [if_pos (Or.inr (Or.inr h))]⟩
      · by_cases h1 : strings.ToLower mapLower (Values.Get r.Query (ascii "order_field"))
            = OrderFieldID ∨
          strings.ToLower mapLower (Values.Get r.Query (ascii "order_field"))
            = OrderFieldAge ∨
          strings.ToLower mapLower (Values.Get r.Query (ascii "order_field"))
            = OrderFieldName
        · exact ⟨_, by rw [if_pos h1]⟩
        · exact ⟨_, by rw [if_neg h1, if_pos h]⟩
  · intro f hf
    unfold parseOrderFieldParam at hf
    simp only at hf
    split_ifs at hf with h1 h2
    · have hf' := (Except.ok.inj hf).symm
      rw [if_neg]
      · exact hf'
      · intro h2
        rcases h1 with h | h | h
        · exact hie (h.symm.trans h2)
        · exact hae (h.symm.trans h2)
        · exact hne (h.symm.trans h2)
    · rw [if_pos h2]
      exact (Except.ok.inj hf).symm
  · intro hno
    unfold parseOrderFieldParam at hno ⊢
    simp only at hno ⊢
    split_ifs at hno ⊢ with h1 h2
    · exact absurd ⟨_, rfl⟩ hno
    · exact absurd ⟨_, rfl⟩ hno
    · rfl
  · intro hascii
    unfold strings.ToLower
    rw [if_pos]
    rw [List.all_eq_true]
    intro c hc
    exact decide_eq_true (hascii c hc)
  · intro src
    have hf : parseOrderFieldParam mapLower (r.withParam (ascii "order_field") OrderFieldEmpty)
        = parseOrderFieldParam mapLower (r.withParam (ascii "order_field") OrderFieldName) := by
      rfl
    unfold SearchServer
    rw [parseLimitParam_withParam r _ _ (by decide), parseLimitParam_withParam r _ _ (by decide),
      parseOffsetParam_withParam r _ _ (by decide), parseOffsetParam_withParam r _ _ (by decide),
      parseOrderByParam_withParam r _ _ (by decide),
      parseOrderByParam_withParam r _ _ (by decide),
      parseQueryParam_withParam r _ _ (by decide), parseQueryParam_withParam r _ _ (by decide),
      hf]
    rfl

/-- Claim C14: a request whose `AccessToken` value is not exactly "token", the
missing header included, is answered 401 with an empty body, whatever the
query parameters and whatever the state of the data source. -/
theorem SearchServer_unauthorized (mapLower : GoString → GoString) (src : Source)
    (r : Request) (htoken : r.AccessToken ≠ ascii "token") :
    SearchServer mapLower src r = some unauthorized ∧
      unauthorized.Code = 401 ∧ unauthorized.Body = Body.empty := by
  refine ⟨?_, rfl, rfl⟩
  unfold SearchServer
  rw [if_pos htoken]

/-- Witness of claim C14: no header, no parameters, an unreadable source. -/
theorem SearchServer_unauthorized_witness :
    anonymousRequest.AccessToken ≠ ascii "token" ∧
      (SearchServer id Source.unreadable anonymousRequest = some unauthorized ∧
        unauthorized.Code = 401 ∧ unauthorized.Body = Body.empty) :=
  ⟨by decide, SearchServer_unauthorized id Source.unreadable anonymousRequest (by decide)⟩

/-- Claim C15: with the valid token, when loading the records fails with the
message `msg` the handler answers 500 with the error payload of that message,
whatever the query parameters. -/
theorem SearchServer_load_failure (mapLower : GoString → GoString) (src : Source)
    (r : Request) (msg : GoString)
    (htoken : r.AccessToken = ascii "token") (hload : loadUsers src = Except.error msg) :
    SearchServer mapLower src r = some (internalServerError msg) ∧
      (internalServerError msg).Code = 500 ∧
      (internalServerError msg).Body = Body.error msg := by
  refine ⟨?_, rfl, rfl⟩
  unfold SearchServer
  rw [if_neg (not_not.2 htoken), hload]

/-- Witness of claim C15: the data set cannot be opened and the limit and the
offset are both invalid. -/
theorem SearchServer_load_failure_witness :
    SearchServer id Source.unreadable (sampleRequest (ascii "-1") (ascii "-1"))
        = some (internalServerError (ascii "open file error")) ∧
      (internalServerError (ascii "open file error")).Code = 500 ∧
      (internalServerError (ascii "open file error")).Body
        = Body.error (ascii "open file error") :=
  SearchServer_load_failure id Source.unreadable (sampleRequest (ascii "-1") (ascii "-1"))
    (ascii "open file error") rfl rfl

/-- Claim C16: for a request that passes authorization, loading and validation
the outcome of the handler is the outcome of `limitOffsetUsers` on the result
of `queryUsers` on the result of `sortUsers`, with the loaded records and the
validated parameters; every response is 200 and carries that sequence. -/
theorem SearchServer_ok_body (mapLower : GoString → GoString) (src : Source)
    (r : Request) (users : Users) (limit offset orderBy : Int) (orderField : GoString)
    (htoken : r.AccessToken = ascii "token") (hload : loadUsers src = Except.ok users)
    (hlimit : parseLimitParam r = Except.ok limit)
    (hoffset : parseOffsetParam r = Except.ok offset)
    (hfield : parseOrderFieldParam mapLower r = Except.ok orderField)
    (hby : parseOrderByParam r = Except.ok orderBy) :
    SearchServer mapLower src r =
        (limitOffsetUsers (queryUsers (sortUsers users orderBy orderField) (parseQueryParam r))
          limit offset).map ok ∧
      (∀ resp, SearchServer mapLower src r = some resp →
        resp.Code = 200 ∧
        ∃ page, limitOffsetUsers
            (queryUsers (sortUsers users orderBy orderField) (parseQueryParam r))
            limit offset = some page ∧ resp.Body = Body.users page) := by
  have h := (SearchServer_validation_order mapLower src r users htoken hload).2.2.2.2
    limit offset orderField orderBy hlimit hoffset hfield hby
  unfold pipeline at h
  refine ⟨h, ?_⟩
  intro resp hresp
  rw [h] at hresp
  cases hp : limitOffsetUsers
      (queryUsers (sortUsers users orderBy orderField) (parseQueryParam r)) limit offset with
  | none =>
    rw [hp] at hresp
    cases hresp
  | some page =>
    rw [hp] at hresp
    have hr := Option.some.inj hresp
    subst hr
    exact ⟨rfl, page, rfl, rfl⟩

/-- Witness of claim C16: limit 2, offset 0, order_field name, order_by 0 over
two rows. -/
theorem SearchServer_ok_body_witness :
    SearchServer id (Source.dataset sampleRows) (sampleRequest (ascii "2") (ascii "0")) =
        (limitOffsetUsers (queryUsers (sortUsers sampleLoaded 0 OrderFieldName)
          (parseQueryParam (sampleRequest (ascii "2") (ascii "0")))) 2 0).map ok ∧
      (∀ resp, SearchServer id (Source.dataset sampleRows)
          (sampleRequest (ascii "2") (ascii "0")) = some resp →
        resp.Code = 200 ∧
        ∃ page, limitOffsetUsers
            (queryUsers (sortUsers sampleLoaded 0 OrderFieldName)
              (parseQueryParam (sampleRequest (ascii "2") (ascii "0"))))
            2 0 = some page ∧ resp.Body = Body.users page) :=
  SearchServer_ok_body id (Source.dataset sampleRows) (sampleRequest (ascii "2") (ascii "0"))
    sampleLoaded 2 0 0 OrderFieldName rfl rfl rfl rfl rfl rfl

/-! ## The wire value of the direction -/

theorem parseOrderByParam_of_text (r : Request) (text : GoString) (n : Int)
    (htext : Values.Get r.Query (ascii "order_by") = text)
    (hatoi : strconv.Atoi text = some n) (hn : ¬ (n < -1 ∨ n > 1)) :
    parseOrderByParam r = Except.ok n := by
  unfold parseOrderByParam
  rw [htext, hatoi]
  simp only [if_neg hn]

theorem parseLimitParam_ok_bounds (r : Request) (n : Int)
    (h : parseLimitParam r = Except.ok n) : 0 ≤ n ∧ n ≤ maxInt := by
  unfold parseLimitParam at h
  cases ha : strconv.Atoi (Values.Get r.Query (ascii "limit")) with
  | none =>
    rw [ha] at h
    cases h
  | some v =>
    rw [ha] at h
    simp only at h
    split_ifs at h with hneg
    have hv := Except.ok.inj h
    subst hv
    exact ⟨by omega, ((strconv.Atoi_eq_some_iff _ _).1 ha).2.2⟩

theorem parseOrderFieldParam_ok_cases (mapLower : GoString → GoString) (r : Request)
    (f : GoString) (h : parseOrderFieldParam mapLower r = Except.ok f) :
    f = OrderFieldID ∨ f = OrderFieldAge ∨ f = OrderFieldName := by
  unfold parseOrderFieldParam at h
  simp only at h
  split_ifs at h with h1 h2
  · have hf := Except.ok.inj h
    rw [← hf]
    exact h1
  · exact Or.inr (Or.inr (Except.ok.inj h).symm)

/-- The keys of the sorted sequence for the wire value 1. -/
theorem sortUsers_one_ordered (users : Users) :
    (sortUsers users 1 OrderFieldID).Pairwise (fun a b => a.ID ≤ b.ID) ∧
      (sortUsers users 1 OrderFieldAge).Pairwise (fun a b => a.Age ≤ b.Age) ∧
      (sortUsers users 1 OrderFieldName).Pairwise
        (fun a b => ¬ List.Lex (· < ·) b.Name a.Name) := by
  have hai : OrderFieldAge ≠ OrderFieldID := by decide
  have hni : OrderFieldName ≠ OrderFieldID := by decide
  have hna : OrderFieldName ≠ OrderFieldAge := by decide
  refine ⟨?_, ?_, ?_⟩
  · refine (sortUsers_sorted users 1 OrderFieldID).imp ?_
    intro a b h
    simpa [sortLess, OrderByAsc] using h
  · refine (sortUsers_sorted users 1 OrderFieldAge).imp ?_
    intro a b h
    simpa [sortLess, OrderByAsc, hai] using h
  · refine (sortUsers_sorted users 1 OrderFieldName).imp ?_
    intro a b h
    rw [← strLess_iff_lex]
    simpa [sortLess, OrderByAsc, hni, hna] using h

/-- The keys of the sorted sequence for the wire value -1. -/
theorem sortUsers_minus_one_ordered (users : Users) :
    (sortUsers users (-1) OrderFieldID).Pairwise (fun a b => b.ID ≤ a.ID) ∧
      (sortUsers users (-1) OrderFieldAge).Pairwise (fun a b => b.Age ≤ a.Age) ∧
      (sortUsers users (-1) OrderFieldName).Pairwise
        (fun a b => ¬ List.Lex (· < ·) a.Name b.Name) := by
  have hai : OrderFieldAge ≠ OrderFieldID := by decide
  have hni : OrderFieldName ≠ OrderFieldID := by decide
  have hna : OrderFieldName ≠ OrderFieldAge := by decide
  refine ⟨?_, ?_, ?_⟩
  · refine (sortUsers_sorted users (-1) OrderFieldID).imp ?_
    intro a b h
    simpa [sortLess, OrderByAsc, OrderByDesc] using h
  · refine (sortUsers_sorted users (-1) OrderFieldAge).imp ?_
    intro a b h
    simpa [sortLess, OrderByAsc, OrderByDesc, hai] using h
  · refine (sortUsers_sorted users (-1) OrderFieldName).imp ?_
    intro a b h
    rw [← strLess_iff_lex]
    simpa [sortLess, OrderByAsc, OrderByDesc, hni, hna] using h

/-- Claim C17: a request that passes authorization, loading and the validation
of limit, offset and order_field, and whose `order_by` text is `1`, is answered
from the records sorted ascending: the sorted sequence is a rearrangement of
the loaded records with non-decreasing keys of the validated field (id, age or
name), and the response is the page of its filtered form; with the text `-1`
the same holds with non-increasing keys; with `order_field = id`, `order_by = 1`,
distinct identifiers and offset 0 the response is the first `limit` records of
the matching records arranged by ascending identifier. The wire values are the
ones of `OrderByAsc` and `OrderByDesc`. -/
theorem SearchServer_wire_direction (mapLower : GoString → GoString) (src : Source)
    (r : Request) (users : Users) (limit offset : Int) (orderField : GoString)
    (htoken : r.AccessToken = ascii "token") (hload : loadUsers src = Except.ok users)
    (hlimit : parseLimitParam r = Except.ok limit)
    (hoffset : parseOffsetParam r = Except.ok offset)
    (hfield : parseOrderFieldParam mapLower r = Except.ok orderField)
    (hlen : (users.length : Int) ≤ maxInt) :
    (OrderByAsc = 1 ∧ OrderByDesc = -1) ∧
    (orderField = OrderFieldID ∨ orderField = OrderFieldAge ∨ orderField = OrderFieldName) ∧
    (Values.Get r.Query (ascii "order_by") = ascii "1" →
      SearchServer mapLower src r =
        (limitOffsetUsers (queryUsers (sortUsers users 1 orderField) (parseQueryParam r))
          limit offset).map ok ∧
      (sortUsers users 1 orderField).Perm users ∧
      (orderField = OrderFieldID →
        (sortUsers users 1 orderField).Pairwise (fun a b => a.ID ≤ b.ID)) ∧
      (orderField = OrderFieldAge →
        (sortUsers users 1 orderField).Pairwise (fun a b => a.Age ≤ b.Age)) ∧
      (orderField = OrderFieldName →
        (sortUsers users 1 orderField).Pairwise
          (fun a b => ¬ List.Lex (· < ·) b.Name a.Name))) ∧
    (Values.Get r.Query (ascii "order_by") = ascii "-1" →
      SearchServer mapLower src r =
        (limitOffsetUsers (queryUsers (sortUsers users (-1) orderField) (parseQueryParam r))
          limit offset).map ok ∧
      (sortUsers users (-1) orderField).Perm users ∧
      (orderField = OrderFieldID →
        (sortUsers users (-1) orderField).Pairwise (fun a b => b.ID ≤ a.ID)) ∧
      (orderField = OrderFieldAge →
        (sortUsers users (-1) orderField).Pairwise (fun a b => b.Age ≤ a.Age)) ∧
      (orderField = OrderFieldName →
        (sortUsers users (-1) orderField).Pairwise
          (fun a b => ¬ List.Lex (· < ·) a.Name b.Name))) ∧
    (Values.Get r.Query (ascii "order_by") = ascii "1" → orderField = OrderFieldID →
      (users.map User.ID).Nodup → offset = 0 →
      ∃ matching : Users,
        matching.Perm (users.filter (fun u =>
          decide (parseQueryParam r <:+: u.Name ∨ parseQueryParam r <:+: u.About))) ∧
        matching.Pairwise (fun a b => a.ID ≤ b.ID) ∧
        SearchServer mapLower src r = some (ok (matching.take limit.toNat))) := by
  have hserver : ∀ n : Int, parseOrderByParam r = Except.ok n →
      SearchServer mapLower src r =
        (limitOffsetUsers (queryUsers (sortUsers users n orderField) (parseQueryParam r))
          limit offset).map ok := by
    intro n hn
    have h := (SearchServer_validation_order mapLower src r users htoken hload).2.2.2.2
      limit offset orderField n hlimit hoffset hfield hn
    unfold pipeline at h
    exact h
  have hone : Values.Get r.Query (ascii "order_by") = ascii "1" →
      parseOrderByParam r = Except.ok 1 := fun h =>
    parseOrderByParam_of_text r _ 1 h (by decide) (by decide)
  have hminus : Values.Get r.Query (ascii "order_by") = ascii "-1" →
      parseOrderByParam r = Except.ok (-1) := fun h =>
    parseOrderByParam_of_text r _ (-1) h (by decide) (by decide)
  refine ⟨⟨rfl, rfl⟩, parseOrderFieldParam_ok_cases mapLower r orderField hfield, ?_, ?_, ?_⟩
  · intro htext
    refine ⟨hserver 1 (hone htext), sortUsers_perm users 1 orderField, ?_, ?_, ?_⟩
    · intro hf
      rw [hf]
      exact (sortUsers_one_ordered users).1
    · intro hf
      rw [hf]
      exact (sortUsers_one_ordered users).2.1
    · intro hf
      rw [hf]
      exact (sortUsers_one_ordered users).2.2
  · intro htext
    refine ⟨hserver (-1) (hminus htext), sortUsers_perm users (-1) orderField, ?_, ?_, ?_⟩
    · intro hf
      rw [hf]
      exact (sortUsers_minus_one_ordered users).1
    · intro hf
      rw [hf]
      exact (sortUsers_minus_one_ordered users).2.1
    · intro hf
      rw [hf]
      exact (sortUsers_minus_one_ordered users).2.2
  · intro htext hf hnodup hzero
    subst hf hzero
    have hperm := sortUsers_perm users 1 OrderFieldID
    have hnodup' : ((sortUsers users 1 OrderFieldID).map User.ID).Nodup :=
      (hperm.map User.ID).nodup_iff.2 hnodup
    have hq := queryUsers_eq_filter_of_nodup (sortUsers users 1 OrderFieldID)
      (parseQueryParam r) hnodup'
    obtain ⟨hl0, hlmax⟩ := parseLimitParam_ok_bounds r limit hlimit
    refine ⟨queryUsers (sortUsers users 1 OrderFieldID) (parseQueryParam r), ?_, ?_, ?_⟩
    · rw [hq]
      exact hperm.filter _
    · rw [hq]
      exact (sortUsers_one_ordered users).1.filter _
    · rw [hserver 1 (hone htext)]
      have hmlen : ((queryUsers (sortUsers users 1 OrderFieldID)
          (parseQueryParam r)).length : Int) ≤ maxInt := by
        rw [hq]
        have h1 := List.length_filter_le
          (fun u => decide (parseQueryParam r <:+: u.Name ∨ parseQueryParam r <:+: u.About))
          (sortUsers users 1 OrderFieldID)
        have h2 := hperm.length_eq
        omega
      have hc : clampedOffset ((queryUsers (sortUsers users 1 OrderFieldID)
          (parseQueryParam r)).length : Int) 0 = 0 := by
        unfold clampedOffset
        split_ifs <;> omega
      rw [limitOffsetUsers_eq _ limit 0 hl0 hlmax (le_refl _) hmlen, hc,
        if_pos (by omega)]
      rfl

/-- Witness of claim C17: three rows stored in the order of the identifiers 2,
1, 0, the request `limit=1&offset=0&query=cillum&order_field=id&order_by=1`: the
response is the matching record of identifier 0; with `order_by=-1` it is the
matching record of identifier 2. -/
theorem SearchServer_wire_direction_witness :
    (∃ matching : Users,
        matching.Perm (wireUsers.filter (fun u =>
          decide (parseQueryParam (wireRequest (ascii "1")) <:+: u.Name ∨
            parseQueryParam (wireRequest (ascii "1")) <:+: u.About))) ∧
        matching.Pairwise (fun a b => a.ID ≤ b.ID) ∧
        SearchServer id (Source.dataset wireRows) (wireRequest (ascii "1"))
          = some (ok (matching.take (1 : Int).toNat))) ∧
      SearchServer id (Source.dataset wireRows) (wireRequest (ascii "1"))
        = some (ok [⟨0, ascii "Boyd Wolf", 22, ascii "Nulla cillum", ascii "male"⟩]) ∧
      SearchServer id (Source.dataset wireRows) (wireRequest (ascii "-1"))
        = some (ok [⟨2, ascii "Brooks Aguilar", 25, ascii "qui cillum aliqua",
            ascii "male"⟩]) :=
  ⟨(SearchServer_wire_direction id (Source.dataset wireRows) (wireRequest (ascii "1"))
      wireUsers 1 0 OrderFieldID rfl rfl rfl rfl rfl (by decide)).2.2.2.2
      rfl rfl (by decide) rfl,
    by decide, by decide⟩

/-- Claim C18: on a decoded sequence of rows `loadUsers` succeeds with a user
sequence of the same length in which the user at each position has the
identifier, age, biography and gender of the row at that position and the name
made of the first name, one space and the last name. -/
theorem loadUsers_dataset (rows : List Row) :
    ∃ users, loadUsers (Source.dataset rows) = Except.ok users ∧
      users.length = rows.length ∧
      ∀ (i : Nat) (hi : i < rows.length),
        users[i]? = some
          { ID := (rows.get ⟨i, hi⟩).ID
            Name := (rows.get ⟨i, hi⟩).FirstName ++ [32] ++ (rows.get ⟨i, hi⟩).LastName
            Age := (rows.get ⟨i, hi⟩).Age
            About := (rows.get ⟨i, hi⟩).About
            Gender := (rows.get ⟨i, hi⟩).Gender } := by
  refine ⟨_, rfl, by simp, ?_⟩
  intro i hi
  simp only [List.getElem?_map, List.getElem?_eq_getElem hi, Option.map_some', List.get_eq_getElem]
  rfl

/-! ## The latency of the filter stage -/

theorem foldl_timed (query : GoString) (users : Users) :
    ∀ acc : (Int → Option User) × List Nat,
      users.foldl
          (fun (acc : (Int → Option User) × List Nat) user =>
            (queryStep query acc.1 user, acc.2 ++ queryStepSleeps query)) acc
        = (users.foldl (queryStep query) acc.1,
            acc.2 ++ (List.replicate users.length (queryStepSleeps query)).flatten) := by
  induction users with
  | nil => intro acc; simp
  | cons u us ih =>
    intro acc
    rw [List.foldl_cons, ih]
    simp [List.replicate_succ, List.append_assoc]

theorem queryUsersTimed_eq (users : Users) (query : GoString) :
    queryUsersTimed users query
      = (queryUsers users query,
          (List.replicate users.length (queryStepSleeps query)).flatten) := by
  unfold queryUsersTimed queryUsers
  simp only [foldl_timed, List.nil_append]

theorem flatten_replicate_singleton {α : Type} (n : Nat) (a : α) :
    (List.replicate n [a]).flatten = List.replicate n a := by
  induction n with
  | zero => rfl
  | succ n ih => simp [List.replicate_succ, ih]

theorem flatten_replicate_nil {α : Type} (n : Nat) :
    (List.replicate n ([] : List α)).flatten = [] := by
  induction n with
  | zero => rfl
  | succ n ih => simp [List.replicate_succ, ih]

/-- Claim C19, as stated, fails: the query of eleven two-byte characters has 11
characters, not more than 20, and `queryUsers` sleeps once per record on it,
its length being 22 bytes. -/
theorem queryUsersTimed_multibyte_query :
    charCount cyrillicQuery = 11 ∧ cyrillicQuery.length = 22 ∧
      (queryUsersTimed sampleUsers cyrillicQuery).2 = [100000000, 100000000, 100000000] := by
  decide

/-- Claim C19, amended: `queryUsers` sleeps exactly when the query is longer
than 20 bytes: one sleep of 100 ms per record of the input then (a total of
100 ms times the number of records, nothing on an empty collection), no sleep
for a query of 20 bytes or fewer; the returned sequence is the one computed
without regard to the sleeps; on an ASCII query the bytes are the characters. -/
theorem queryUsersTimed_sleeps (users : Users) (query : GoString) :
    (queryUsersTimed users query).1 = queryUsers users query ∧
      (20 < query.length →
        (queryUsersTimed users query).2 = List.replicate users.length 100000000 ∧
        (queryUsersTimed users query).2.sum = users.length * 100000000) ∧
      (query.length ≤ 20 → (queryUsersTimed users query).2 = []) ∧
      ((∀ b ∈ query, b < 128) → charCount query = query.length) := by
  rw [queryUsersTimed_eq]
  refine ⟨rfl, ?_, ?_, ?_⟩
  · intro h
    have hs : queryStepSleeps query = [100000000] := by
      unfold queryStepSleeps sleepDuration
      rw [if_pos (by omega), if_pos (by omega)]
    simp only [hs, flatten_replicate_singleton, List.sum_replicate, smul_eq_mul, and_self]
  · intro h
    have hs : queryStepSleeps query = [] := by
      unfold queryStepSleeps
      split_ifs <;> first | rfl | omega
    simp only [hs, flatten_replicate_nil]
  · intro h
    unfold charCount
    rw [List.filter_eq_self.2]
    intro b hb
    have := h b hb
    simp only [Bool.not_eq_true', Bool.and_eq_false_imp, decide_eq_true_eq, decide_eq_false_iff_not]
    omega

/-! ## The bounds of the slice expression -/

/-- The result of `limitOffsetUsers` in terms of the bounds it computes. -/
theorem limitOffsetUsers_eq_bounds (users : Users) (limit offset : Int) :
    limitOffsetUsers users limit offset =
      if 0 ≤ (limitOffsetBounds users limit offset).1 ∧
          (limitOffsetBounds users limit offset).1 ≤ (limitOffsetBounds users limit offset).2 ∧
          (limitOffsetBounds users limit offset).2 ≤ users.length then
        some ((users.drop (limitOffsetBounds users limit offset).1.toNat).take
          ((limitOffsetBounds users limit offset).2
            - (limitOffsetBounds users limit offset).1).toNat)
      else none := rfl

/-- Claim C20, evaluated on the code: on two records, with the validated limit
9223372036854775807 and offset 1, the computed bounds are the offset 1 and
`realLimit = -9223372036854775808`, so the offset exceeds `realLimit` and the
slice expression panics. -/
theorem limitOffsetBounds_overflow :
    limitOffsetBounds [dupFirst, dupSecond] 9223372036854775807 1
        = (1, -9223372036854775808) ∧
      ¬ ((limitOffsetBounds [dupFirst, dupSecond] 9223372036854775807 1).1
          ≤ (limitOffsetBounds [dupFirst, dupSecond] 9223372036854775807 1).2) ∧
      limitOffsetUsers [dupFirst, dupSecond] 9223372036854775807 1 = none := by
  decide

/-! ## Sorting and filtering -/

section SortFilter

variable {α : Type} (less : α → α → Bool)

theorem sort.insert_of_not_less (x : α) (l : List α) (h : ∀ z ∈ l, less z x = false) :
    sort.insert less x l = x :: l := by
  cases l with
  | nil => rfl
  | cons y ys => simp [sort.insert, h y (List.mem_cons_self _ _)]

theorem sort.filter_insert_of_neg (p : α → Bool) (x : α) (hx : p x = false) (l : List α) :
    (sort.insert less x l).filter p = l.filter p := by
  induction l with
  | nil => simp [sort.insert, hx]
  | cons y ys ih =>
    simp only [sort.insert]
    split_ifs
    · simp only [List.filter_cons, ih]
    · simp [List.filter_cons, hx]

theorem sort.filter_insert_of_pos
    (hneg : ∀ a b c, less a b = false → less b c = false → less a c = false)
    (p : α → Bool) (x : α) (hx : p x = true) (l : List α)
    (hl : l.Pairwise (fun a b => less b a = false)) :
    (sort.insert less x l).filter p = sort.insert less x (l.filter p) := by
  induction l with
  | nil => simp [sort.insert, hx]
  | cons y ys ih =>
    rw [List.pairwise_cons] at hl
    have ih' := ih hl.2
    simp only [sort.insert]
    split_ifs with hyx
    · by_cases hy : p y = true
      · simp only [List.filter_cons, hy, if_true, ih', sort.insert, hyx]
      · have hy' : p y = false := by simpa using hy
        simp only [List.filter_cons, hy', ih', Bool.false_eq_true, if_false]
    · have hyx' : less y x = false := by simpa using hyx
      by_cases hy : p y = true
      · simp only [List.filter_cons, hx, hy, if_true, sort.insert, hyx, if_false,
          Bool.false_eq_true]
      · have hy' : p y = false := by simpa using hy
        simp only [List.filter_cons, hx, hy', if_true, Bool.false_eq_true, if_false]
        rw [sort.insert_of_not_less]
        intro z hz
        exact hneg _ _ _ (hl.1 z (List.mem_filter.1 hz).1) hyx'

/-- A stable sort by a strict weak order commutes with every filter. -/
theorem sort.SliceStable_filter_comm
    (hasymm : ∀ a b, less a b = true → less b a = false)
    (hneg : ∀ a b c, less a b = false → less b c = false → less a c = false)
    (p : α → Bool) (l : List α) :
    (sort.SliceStable less l).filter p = sort.SliceStable less (l.filter p) := by
  induction l with
  | nil => rfl
  | cons x xs ih =>
    simp only [sort.SliceStable]
    by_cases hx : p x = true
    · rw [sort.filter_insert_of_pos less hneg p x hx _
        (sort.SliceStable_sorted less hasymm hneg xs), ih, List.filter_cons_of_pos hx]
      rfl
    · have hx' : p x = false := by simpa using hx
      rw [sort.filter_insert_of_neg less p x hx', ih, List.filter_cons_of_neg hx]

end SortFilter

/-- Claim C21: on a user sequence with pairwise distinct identifiers, filtering
the sorted sequence gives the same sequence as sorting the filtered one, for
every sort field, direction and query. -/
theorem queryUsers_sortUsers_comm (users : Users) (orderBy : Int)
    (orderField query : GoString) (hnodup : (users.map User.ID).Nodup) :
    queryUsers (sortUsers users orderBy orderField) query
      = sortUsers (queryUsers users query) orderBy orderField := by
  have hperm : ((sortUsers users orderBy orderField).map User.ID).Perm (users.map User.ID) :=
    (sortUsers_perm users orderBy orderField).map _
  rw [queryUsers_eq_filter_of_nodup _ query (hperm.nodup_iff.2 hnodup),
    queryUsers_eq_filter_of_nodup users query hnodup]
  exact sort.SliceStable_filter_comm _ (sortLess_asymm orderBy orderField)
    (sortLess_negtrans orderBy orderField) _ users

/-- Witness of claim C21: three records, descending by age, the query "cillum". -/
theorem queryUsers_sortUsers_comm_witness :
    (sampleUsers.map User.ID).Nodup ∧
      queryUsers (sortUsers sampleUsers OrderByDesc OrderFieldAge) (ascii "cillum")
        = sortUsers (queryUsers sampleUsers (ascii "cillum")) OrderByDesc OrderFieldAge :=
  ⟨by decide,
    queryUsers_sortUsers_comm sampleUsers OrderByDesc OrderFieldAge (ascii "cillum")
      (by decide)⟩

/-! ## Consecutive pages -/

theorem clampedOffset_of_lt (len offset : Int) (h : offset < len) :
    clampedOffset len offset = offset := by
  unfold clampedOffset
  rw [if_pos h]

theorem limitOffsetUsers_none_of_wrapped_limit (users : Users) (limit offset : Int)
    (ho : 0 ≤ offset) (hin : offset < users.length)
    (hlen : (users.length : Int) ≤ maxInt)
    (hlow : -(2 ^ 63) ≤ limit) (hneg : offset + limit < 0) :
    limitOffsetUsers users limit offset = none := by
  unfold limitOffsetUsers
  simp only
  unfold wrapInt maxInt at *
  split_ifs <;> first | rfl | omega

/-- Claim C22: for an offset `o` and limits `a`, `b` with `o + a` inside the
sequence, the page of `a` records at `o` followed by the page of `b` records at
`o + a` is the page of `a + b` records at `o`: the two sides are the same
outcome in every case, and when `o + a + b` is an `int` the three calls return
and the concatenation of the first two pages is the third. -/
theorem limitOffsetUsers_pages_tile (users : Users) (a b o : Int)
    (ha : 0 ≤ a) (hb : 0 ≤ b) (hbmax : b ≤ maxInt) (ho : 0 ≤ o)
    (hlen : (users.length : Int) ≤ maxInt) (hin : o + a < users.length) :
    ((limitOffsetUsers users a o).bind fun p =>
        (limitOffsetUsers users b (o + a)).map fun q => p ++ q)
        = limitOffsetUsers users (wrapInt (a + b)) o ∧
      (o + a + b ≤ maxInt →
        ∃ p q, limitOffsetUsers users a o = some p ∧
          limitOffsetUsers users b (o + a) = some q ∧
          limitOffsetUsers users (a + b) o = some (p ++ q)) := by
  have h1 := limitOffsetUsers_eq users a o ha (by omega) ho hlen
  rw [clampedOffset_of_lt _ _ (by omega), if_pos (by omega)] at h1
  have h2 := limitOffsetUsers_eq users b (o + a) hb hbmax (by omega) hlen
  rw [clampedOffset_of_lt _ _ hin] at h2
  have hlist : (users.drop o.toNat).take a.toNat
      ++ (users.drop (o + a).toNat).take b.toNat
      = (users.drop o.toNat).take (a + b).toNat := by
    rw [Int.toNat_add ho ha, Int.toNat_add ha hb, List.take_add, List.drop_drop]
  have h3 : o + a + b ≤ maxInt →
      limitOffsetUsers users (a + b) o
        = some ((users.drop o.toNat).take (a + b).toNat) := by
    intro hsum
    have h := limitOffsetUsers_eq users (a + b) o (by omega) (by omega) ho hlen
    rw [clampedOffset_of_lt _ _ (by omega), if_pos (by omega)] at h
    exact h
  constructor
  · by_cases hsum : o + a + b ≤ maxInt
    · rw [h1, h2, if_pos hsum, wrapInt_of_range (a + b) (by omega) (by omega), h3 hsum]
      simp only [Option.some_bind, Option.map_some', hlist]
    · rw [h1, h2, if_neg hsum]
      simp only [Option.some_bind, Option.map_none']
      by_cases hab : a + b ≤ maxInt
      · have h := limitOffsetUsers_eq users (a + b) o (by omega) hab ho hlen
        rw [clampedOffset_of_lt _ _ (by omega), if_neg (by omega)] at h
        rw [wrapInt_of_range (a + b) (by omega) hab, h]
      · symm
        apply limitOffsetUsers_none_of_wrapped_limit users _ o ho (by omega) hlen
        · unfold wrapInt; omega
        · unfold wrapInt maxInt at *; omega
  · intro hsum
    rw [if_pos hsum] at h2
    exact ⟨_, _, h1, h2, by rw [h3 hsum, hlist]⟩

/-- Witness of claim C22: three records, the pages of 1 and 1 records from the
offset 0 and the page of 2 records. -/
theorem limitOffsetUsers_pages_tile_witness :
    ((limitOffsetUsers sampleUsers 1 0).bind fun p =>
        (limitOffsetUsers sampleUsers 1 (0 + 1)).map fun q => p ++ q)
        = limitOffsetUsers sampleUsers (wrapInt (1 + 1)) 0 ∧
      ∃ p q, limitOffsetUsers sampleUsers 1 0 = some p ∧
        limitOffsetUsers sampleUsers 1 (0 + 1) = some q ∧
        limitOffsetUsers sampleUsers (1 + 1) 0 = some (p ++ q) :=
  ⟨(limitOffsetUsers_pages_tile sampleUsers 1 1 0 (by decide) (by decide) (by decide)
      (by decide) (by decide) (by decide)).1,
    (limitOffsetUsers_pages_tile sampleUsers 1 1 0 (by decide) (by decide) (by decide)
      (by decide) (by decide) (by decide)).2 (by decide)⟩

end UserSearch
